import Mathlib

/-!
Verification of the prompt-construction core of Project-Wannabe.

Python strings are modelled as `List Char`; each definition below is a
direct translation of the corresponding function in
`src/core/dynamic_prompts.py`, `src/core/prompt_builder.py` and
`src/core/context_utils.py`.  Regex-based scans (`re.sub`, `re.finditer`)
are translated as left-to-right character scanners that reproduce the
leftmost / non-greedy match semantics of the patterns used by the source.
-/

namespace Wannabe

/-- Shorthand for the model of a Python `str`. -/
abbrev Str := List Char

/-- Characters treated as whitespace by Python `str.strip()` /
`str.isspace()`: ASCII whitespace, the C1 and Latin-1 spaces and the
Unicode space separators, written as codepoints. -/
def isPySpace (c : Char) : Bool :=
  c ∈ [' ', '\t', '\n', '\r', '\x0b', '\x0c',
       '\x1c', '\x1d', '\x1e', '\x1f'] ||
  c.toNat ∈ ([0x85, 0xa0, 0x1680, 0x2000, 0x2001, 0x2002, 0x2003, 0x2004,
              0x2005, 0x2006, 0x2007, 0x2008, 0x2009, 0x200a, 0x2028,
              0x2029, 0x202f, 0x205f, 0x3000] : List Nat)

/-- Python `str.lstrip()`. -/
def pyLStrip (s : Str) : Str := s.dropWhile isPySpace

/-- Python `str.rstrip()`. -/
def pyRStrip (s : Str) : Str := (s.reverse.dropWhile isPySpace).reverse

/-- Python `str.strip()`. -/
def pyStrip (s : Str) : Str := pyRStrip (pyLStrip s)

/-- Python `str.rstrip(" \t")` as used by `is_sentence_complete`. -/
def rstripSpTab (s : Str) : Str :=
  (s.reverse.dropWhile (fun c => c = ' ' ∨ c = '\t')).reverse

/-- Worker for `pySplitlines`: accumulates the current line (reversed) and
splits at `\n`, `\r\n` or `\r`, dropping a trailing empty segment exactly
as Python `str.splitlines()` does. -/
def splitlinesGo (acc : Str) : Str → List Str
  | [] => [acc.reverse]
  | '\r' :: '\n' :: rest =>
      acc.reverse :: (if rest.isEmpty then [] else splitlinesGo [] rest)
  | '\n' :: rest =>
      acc.reverse :: (if rest.isEmpty then [] else splitlinesGo [] rest)
  | '\r' :: rest =>
      acc.reverse :: (if rest.isEmpty then [] else splitlinesGo [] rest)
  | c :: rest => splitlinesGo (c :: acc) rest

/-- Python `str.splitlines()` (restricted to the `\n`, `\r\n`, `\r`
terminators, the only ones the repository produces). -/
def pySplitlines : Str → List Str
  | [] => []
  | s => splitlinesGo [] s

/-- Truthiness of `line.strip()`: the line has non-whitespace content. -/
def isContentLine (l : Str) : Bool := !(pyStrip l).isEmpty

/-- The sequence of non-blank lines of a text. -/
def contentLines (t : Str) : List Str := (pySplitlines t).filter isContentLine

/-- `len([line for line in text.splitlines() if line.strip()])`. -/
def countContentLines (t : Str) : Nat := (contentLines t).length

/-- `"\n".join(...)` on a list of lines. -/
def joinNL (xs : List Str) : Str := List.intercalate (("\n").data) xs

/-! ### dynamic_prompts.py — comment stripping

`BLOCK_COMMENT_PATTERN = re.compile(r"@/\*.*?@\*/", re.DOTALL)` and
`LINE_COMMENT_PATTERN = re.compile(r"@//.*?$", re.MULTILINE)`, both applied
with `.sub("", text)`.  The scanners below reproduce the leftmost,
non-greedy match semantics: a block comment runs from `@/*` to the first
following `@*/` (an unclosed `@/*` matches nothing); a line comment runs
from `@//` up to, but *not* including, the next `\n` (or to end of text).
-/

/-- Scanner for `BLOCK_COMMENT_PATTERN.sub("", text)`.  `none` means we are
outside a comment; `some buf` means we are inside a tentative comment whose
text so far (reversed) is `buf` — emitted verbatim if no `@*/` ever closes
it, exactly as the regex finds no match in that case. -/
def blockGo : Option Str → Str → Str
  | none, [] => []
  | some buf, [] => buf.reverse
  | none, '@' :: '/' :: '*' :: rest => blockGo (some ['*', '/', '@']) rest
  | none, c :: rest => c :: blockGo none rest
  | some _, '@' :: '*' :: '/' :: rest => blockGo none rest
  | some buf, c :: rest => blockGo (some (c :: buf)) rest

/-- `BLOCK_COMMENT_PATTERN.sub("", text)`. -/
def blockCommentStrip (s : Str) : Str := blockGo none s

/-- Scanner for `LINE_COMMENT_PATTERN.sub("", text)`.  The Bool is true
while inside a line comment; the terminating `\n` is kept (the `$` anchor
is zero-width, so the newline is not part of the match). -/
def lineGo : Bool → Str → Str
  | _, [] => []
  | false, '@' :: '/' :: '/' :: rest => lineGo true rest
  | false, c :: rest => c :: lineGo false rest
  | true, '\n' :: rest => '\n' :: lineGo false rest
  | true, _ :: rest => lineGo true rest

/-- `LINE_COMMENT_PATTERN.sub("", text)`. -/
def lineCommentStrip (s : Str) : Str := lineGo false s

/-- Python `text.find(pat)` restricted to found-or-not: index of the first
occurrence of `pat` in `s`. -/
def findSub (pat : Str) : Str → Option Nat
  | [] => if pat.isEmpty then some 0 else none
  | c :: rest =>
      if pat.isPrefixOf (c :: rest) then some 0
      else (findSub pat rest).map (· + 1)

/-- Python `text.rfind(pat)`: index of the last occurrence of `pat`. -/
def rfindSub (pat : Str) : Str → Option Nat
  | [] => if pat.isEmpty then some 0 else none
  | c :: rest =>
      match rfindSub pat rest with
      | some i => some (i + 1)
      | none => if pat.isPrefixOf (c :: rest) then some 0 else none

/-- The `@break` / `@startpoint` truncation of `evaluate_dynamic_prompt`
(lines 53–59 of dynamic_prompts.py), with Python's `-1` missing-index
convention modelled by `Int`. -/
def applyRangeMarkers (t : Str) : Str :=
  let lb : Int := match rfindSub (("@break").data) t with
    | some i => (i : Int)
    | none => -1
  let ls : Int := match rfindSub (("@startpoint").data) t with
    | some i => (i : Int)
    | none => -1
  if lb ≠ -1 ∨ ls ≠ -1 then
    if ls ≤ lb then t.drop ((lb + 6).toNat) else t.drop ((ls + 11).toNat)
  else t

/-- The `@endpoint` truncation (lines 61–63 of dynamic_prompts.py). -/
def applyEndpointMarker (t : Str) : Str :=
  match findSub (("@endpoint").data) t with
  | some i => t.take i
  | none => t

/-! ### dynamic_prompts.py — alternative groups -/

/-- The single-quote character, kept out of literals. -/
def squote : Char := Char.ofNat 39

/-- Splits `s` at the first occurrence of the quote character `q`,
returning the part before it and the part after it. -/
def qsplit (q : Char) : Str → Option (Str × Str)
  | [] => none
  | c :: rest =>
      if c = q then some ([], rest)
      else (qsplit q rest).map (fun p => (c :: p.1, p.2))

/-- `OPTION_PARSE_PATTERN.findall(options_str)` for the pattern
`"[^"]*"|'[^']*'|[^|]+`: at each scan position a closed double-quoted
string, then a closed single-quoted string, then a greedy run of
non-pipe characters; a bare `|` advances the scan.  Each step consumes at
least one character, so `fuel = s.length` is always sufficient. -/
def optsGoF : Nat → Str → List Str
  | 0, _ => []
  | _ + 1, [] => []
  | f + 1, c :: rest =>
      if c = '|' then optsGoF f rest
      else if c = '"' ∨ c = squote then
        match qsplit c rest with
        | some (inner, rest2) => (c :: (inner ++ [c])) :: optsGoF f rest2
        | none =>
            ((c :: rest).takeWhile (fun d => d ≠ '|')) ::
              optsGoF f ((c :: rest).dropWhile (fun d => d ≠ '|'))
      else
        ((c :: rest).takeWhile (fun d => d ≠ '|')) ::
          optsGoF f ((c :: rest).dropWhile (fun d => d ≠ '|'))

/-- `_parse_options`: find the segments, strip each, drop the empties. -/
def parseOptions (s : Str) : List Str :=
  ((optsGoF s.length s).map pyStrip).filter (fun o => !o.isEmpty)

/-- The quote-stripping done on the chosen option in `replace_match`. -/
def stripChosenQuotes (s : Str) : Str :=
  if 2 ≤ s.length ∧
      ((s.head? = some '"' ∧ s.getLast? = some '"') ∨
       (s.head? = some squote ∧ s.getLast? = some squote)) then
    (s.drop 1).dropLast
  else s

/-- `replace_match`, with `random.choice` abstracted into the injected
selection function `choose` (called only on the non-empty option list). -/
def replaceMatch (choose : List Str → Str) (content : Str) : Str :=
  let options := parseOptions content
  if options.isEmpty then '{' :: (content ++ ['}'])
  else stripChosenQuotes (choose options)

/-- Scanner for `DYNAMIC_PROMPT_PATTERN.sub(replace_match, text)` with
pattern `\{([^}]+)\}`.  `some buf` holds the (reversed) group content seen
since the opening `{`; a group closed on empty content (`{}`), or never
closed, produces no match and is emitted verbatim. -/
def dynGo (choose : List Str → Str) : Option Str → Str → Str
  | none, [] => []
  | some buf, [] => '{' :: buf.reverse
  | none, '{' :: rest => dynGo choose (some []) rest
  | none, c :: rest => c :: dynGo choose none rest
  | some buf, '}' :: rest =>
      (if buf.isEmpty then ['{', '}'] else replaceMatch choose buf.reverse) ++
        dynGo choose none rest
  | some buf, c :: rest => dynGo choose (some (c :: buf)) rest

/-- `evaluate_dynamic_prompt` (the spec's `evaluate_template`), for string
input: strip block comments, strip line comments, apply the range-control
markers, then — only when a `{` remains — substitute alternative groups. -/
def evaluate_dynamic_prompt (choose : List Str → Str) (text : Str) : Str :=
  let t1 := blockCommentStrip text
  let t2 := lineCommentStrip t1
  let t3 := applyRangeMarkers t2
  let t4 := applyEndpointMarker t3
  if ('{') ∈ t4 then dynGo choose none t4 else t4

/-- A concrete selection function (always the first option), one of the
behaviors `random.choice` can exhibit; used for closed evaluations. -/
def chooseHead (opts : List Str) : Str := opts.headD []

/-! ### dynamic_prompts.py — `is_position_valid`

The predicate recomputes the comment spans with `finditer` and then walks
the `@break` / `@startpoint` / `@endpoint` matches of the original text.
Spans are pairs `(start, stop)` with `stop` exclusive, as in Python.
-/

/-- `BLOCK_COMMENT_PATTERN.finditer(text)` as `(start, stop)` spans.
`some st` records the start of the block comment currently being scanned;
an unclosed `@/*` contributes no span. -/
def blockSpansGo : Option Nat → Nat → Str → List (Nat × Nat)
  | _, _, [] => []
  | none, i, '@' :: '/' :: '*' :: rest => blockSpansGo (some i) (i + 3) rest
  | none, i, _ :: rest => blockSpansGo none (i + 1) rest
  | some st, i, '@' :: '*' :: '/' :: rest =>
      (st, i + 3) :: blockSpansGo none (i + 3) rest
  | some st, i, _ :: rest => blockSpansGo (some st) (i + 1) rest

/-- `LINE_COMMENT_PATTERN.finditer(text)` spans, already extended past the
terminating newline as `is_position_valid` does (`end += 1` when
`text[end]` is `"\n"`; the regex `$` never stops before a bare `"\r"`, so
the `"\r\n"` arm of the source is unreachable). -/
def lineSpansGo : Option Nat → Nat → Str → List (Nat × Nat)
  | none, _, [] => []
  | some st, i, [] => [(st, i)]
  | none, i, '@' :: '/' :: '/' :: rest => lineSpansGo (some i) (i + 3) rest
  | none, i, _ :: rest => lineSpansGo none (i + 1) rest
  | some st, i, '\n' :: rest => (st, i + 1) :: lineSpansGo none (i + 1) rest
  | some st, i, _ :: rest => lineSpansGo (some st) (i + 1) rest

/-- The `comment_spans` list of `is_position_valid`: block-comment spans
followed by (extended) line-comment spans. -/
def commentSpans (text : Str) : List (Nat × Nat) :=
  blockSpansGo none 0 text ++ lineSpansGo none 0 text

/-- The `_in_comment` helper: the position lies in one of the spans. -/
def inCommentSpan (spans : List (Nat × Nat)) (p : Nat) : Bool :=
  spans.any (fun sp => decide (sp.1 ≤ p ∧ p < sp.2))

/-- Generic `finditer` over a list of alternative literal patterns (tried
in order, scan resuming after each match), as `(start, stop)` spans.  Each
step consumes at least one character, so `fuel = s.length` suffices. -/
def finditerF (pats : List Str) : Nat → Nat → Str → List (Nat × Nat)
  | 0, _, _ => []
  | _ + 1, _, [] => []
  | f + 1, i, c :: rest =>
      match pats.find? (fun p => p.isPrefixOf (c :: rest)) with
      | some p =>
          (i, i + p.length) ::
            finditerF pats f (i + p.length) ((c :: rest).drop p.length)
      | none => finditerF pats f (i + 1) rest

/-- `BREAK_PATTERN.finditer(text)` for `@break|@startpoint`. -/
def breakFinditer (text : Str) : List (Nat × Nat) :=
  finditerF [("@break").data, ("@startpoint").data] text.length 0 text

/-- `ENDPOINT_PATTERN.finditer(text)` for `@endpoint`. -/
def endpointFinditer (text : Str) : List (Nat × Nat) :=
  finditerF [("@endpoint").data] text.length 0 text

/-- `is_position_valid(text, cursor_pos)` for a non-negative cursor
position (Python returns False outright for a negative one). -/
def is_position_valid (text : Str) (cursor_pos : Nat) : Bool :=
  if cursor_pos > text.length then false
  else
    let spans := commentSpans text
    if inCommentSpan spans cursor_pos then false
    else
      let breaks := (breakFinditer text).filter
        (fun m => !inCommentSpan spans m.1)
      let start_index := ((breaks.map (fun m => m.2)).getLast?).getD 0
      if cursor_pos < start_index then false
      else
        let eps := (endpointFinditer text).filter
          (fun m => !inCommentSpan spans m.1 ∧ start_index ≤ m.1)
        match eps.head? with
        | some m => if m.1 ≤ cursor_pos then false else true
        | none => true

/-! Specification-side rendering of the claim: positions of markers are
taken as the set of *all* occurrences in the text (in increasing order of
position), not as the result of a resumed scan. -/

/-- The end positions of all `@break` / `@startpoint` occurrences that lie
outside every comment span, in increasing order of start position. -/
def markerEndsSpec (text : Str) : List Nat :=
  (List.range text.length).filterMap (fun i =>
    if inCommentSpan (commentSpans text) i then none
    else if (("@break").data).isPrefixOf (text.drop i) then some (i + 6)
    else if (("@startpoint").data).isPrefixOf (text.drop i) then some (i + 11)
    else none)

/-- The end of the last marker outside comments, or 0 when there is none:
the start of the active region. -/
def specActiveStart (text : Str) : Nat := (markerEndsSpec text).getLast?.getD 0

/-- The start positions of all `@endpoint` occurrences outside comments at
or after the given start, in increasing order. -/
def endpointStartsSpec (text : Str) (start : Nat) : List Nat :=
  (List.range text.length).filterMap (fun i =>
    if !inCommentSpan (commentSpans text) i ∧ start ≤ i ∧
        (("@endpoint").data).isPrefixOf (text.drop i) then some i
    else none)

/-- The claim's characterization of a valid offset: inside the text,
outside every comment span, at or after the active-region start, and
before the first `@endpoint` (outside comments, at or after that start)
when one exists. -/
def specPositionValid (text : Str) (pos : Nat) : Bool :=
  decide (pos ≤ text.length) &&
  !inCommentSpan (commentSpans text) pos &&
  decide (specActiveStart text ≤ pos) &&
  ((endpointStartsSpec text (specActiveStart text)).head?.all
    (fun e => decide (pos < e)))

/-! ### prompt_builder.py -/

/-- The six task types of `determine_task_and_instruction`. -/
inductive TaskType
  | genInfo
  | genZero
  | contInfo
  | contZero
  | ideaInfo
  | ideaZero
deriving DecidableEq

/-- `INSTRUCTION_TEMPLATES` (lookup never misses, the table is total). -/
def instructionFor : TaskType → Str
  | .genInfo => ("以下の情報に基づいて小説本文を生成してください。").data
  | .genZero => ("自由に小説を生成してください。").data
  | .contInfo =>
      ("参考情報と本文を踏まえ、最後の文章の自然な続きとなるように小説を生成してください。").data
  | .contZero =>
      ("本文を踏まえ、最後の文章の自然な続きとなるように小説を生成してください。").data
  | .ideaInfo =>
      ("以下の情報に基づいて、完全な小説のアイデア（タイトル、キーワード、ジャンル、あらすじ、設定、プロット）を生成してください。").data
  | .ideaZero =>
      ("自由に小説のアイデア（タイトル、キーワード、ジャンル、あらすじ、設定、プロット）を生成してください。").data

/-- The metadata dictionary handed to the prompt builder.  A missing
string key reads as the empty string (the `metadata.get(key, "")`
convention) and `dialogue_level` is `none` exactly when the key is absent
from the dictionary. -/
structure Metadata where
  title : Str
  keywords : List Str
  genres : List Str
  synopsis : Str
  setting : Str
  plot : Str
  dialogue_level : Option Str
deriving DecidableEq

/-- `split_main_text(text)`:  `("", "")` when the text has fewer than 4
content lines; otherwise the pair (lines before the tail, the up-to-3
physical lines ending at the second-to-last content line), both joined
with `"\n"`.  `lines[a : b]` is written `(lines.take b).drop a`. -/
def contentIdxAux (n : Nat) : List Str → List Nat
  | [] => []
  | l :: ls =>
      if isContentLine l then n :: contentIdxAux (n + 1) ls
      else contentIdxAux (n + 1) ls

/-- `[i for i, line in enumerate(lines) if line.strip()]`. -/
def contentLineIndices (lines : List Str) : List Nat := contentIdxAux 0 lines

/-- The reverse scan of build_prompt's continuation branch: index of the
last line with content, `none` when every line is blank. -/
def lastContentIndex : List Str → Option Nat
  | [] => none
  | l :: ls =>
      match lastContentIndex ls with
      | some i => some (i + 1)
      | none => if isContentLine l then some 0 else none

/-- `split_main_text` (prompt_builder.py lines 85–128). -/
def split_main_text (text : Str) : Str × Str :=
  if text.isEmpty then ([], [])
  else
    let lines := pySplitlines text
    let idxs := contentLineIndices lines
    if idxs.length < 4 then ([], [])
    else
      let tailEnd := idxs.getD (idxs.length - 2) 0
      let tailStart := tailEnd - 2
      let tailLines := (lines.take (tailEnd + 1)).drop tailStart
      let mainLines := lines.take tailStart
      (joinNL mainLines, joinNL tailLines)

/-- `is_sentence_complete` (prompt_builder.py lines 131–155). -/
def is_sentence_complete (text : Str) : Bool :=
  if text.isEmpty then false
  else
    let stripped := rstripSpTab text
    if (("。").data).isSuffixOf stripped || (("」").data).isSuffixOf stripped then
      true
    else if (("\n").data).isSuffixOf text && !(pyStrip text).isEmpty then true
    else false

/-- `determine_task_and_instruction` (prompt_builder.py lines 158–220). -/
def determine_task_and_instruction (current_mode main_text : Str)
    (metadata : Metadata) : TaskType × Str :=
  let has_main_text := !(pyStrip main_text).isEmpty
  let has_title := !(pyStrip metadata.title).isEmpty
  let has_keywords := !metadata.keywords.isEmpty
  let has_genres := !metadata.genres.isEmpty
  let has_synopsis := !(pyStrip metadata.synopsis).isEmpty
  let has_setting := !(pyStrip metadata.setting).isEmpty
  let has_plot := !(pyStrip metadata.plot).isEmpty
  let has_dialogue_level := metadata.dialogue_level.isSome
  let has_any_metadata_for_gen_cont :=
    has_title || has_keywords || has_genres || has_synopsis ||
      has_setting || has_plot || has_dialogue_level
  let has_any_metadata_for_idea :=
    has_title || has_keywords || has_genres || has_synopsis ||
      has_setting || has_plot
  let task :=
    if current_mode = ("generate").data then
      if !has_main_text then
        if has_any_metadata_for_gen_cont then TaskType.genInfo
        else TaskType.genZero
      else
        let num_content_lines := countContentLines main_text
        if num_content_lines < 4 then
          if has_any_metadata_for_gen_cont then TaskType.genInfo
          else TaskType.genZero
        else
          if has_any_metadata_for_gen_cont then TaskType.contInfo
          else TaskType.contZero
    else if current_mode = ("idea").data then
      if has_any_metadata_for_idea then TaskType.ideaInfo else TaskType.ideaZero
    else TaskType.genZero
  (task, instructionFor task)

/-- Python `str.strip('"')`: remove every leading and trailing `"`. -/
def stripAllQuotes (s : Str) : Str :=
  ((s.dropWhile (fun c => c = '"')).reverse.dropWhile (fun c => c = '"')).reverse

/-- One string-valued metadata block of `format_metadata`: emitted only
when the value is truthy and strips to something non-blank. -/
def formatStringField (header : Str) (v : Str) : List Str :=
  if !v.isEmpty && !(pyStrip v).isEmpty then [header ++ pyStrip v] else []

/-- One list-valued metadata block (keywords, genres): each tag is
template-evaluated and stripped of double quotes, empties are dropped, and
the block is emitted only when something remains. -/
def formatListField (choose : List Str → Str) (header : Str)
    (tags : List Str) : List Str :=
  if tags.isEmpty then []
  else
    let evaluated :=
      (tags.map (fun t => stripAllQuotes (evaluate_dynamic_prompt choose t))).filter
        (fun t => !t.isEmpty)
    if evaluated.isEmpty then [] else [header ++ joinNL evaluated]

/-- `format_metadata(metadata, mode)` (prompt_builder.py lines 44–82):
blocks in the fixed Japanese field order, `dialogue_level` skipped in idea
mode, joined with blank lines. -/
def format_metadata (choose : List Str → Str) (m : Metadata)
    (mode : Str) : Str :=
  let blocks :=
    formatStringField (("# タイトル:\n").data) m.title ++
    formatListField choose (("# キーワード:\n").data) m.keywords ++
    formatListField choose (("# ジャンル:\n").data) m.genres ++
    formatStringField (("# あらすじ:\n").data) m.synopsis ++
    formatStringField (("# 設定:\n").data) m.setting ++
    formatStringField (("# プロット:\n").data) m.plot ++
    (if mode = ("idea").data then []
     else
       match m.dialogue_level with
       | some v => formatStringField (("# セリフ量:\n").data) v
       | none => [])
  List.intercalate (("\n\n").data) blocks

/-- The continuation-task partition of `build_prompt` (lines 296–337),
before the max-length truncation: `(main_part, tail, prompt_suffix)`. -/
def contPartition (main_text : Str) : Str × Str × Str :=
  if is_sentence_complete main_text then
    let lines := pySplitlines main_text
    match lastContentIndex lines with
    | some lastIdx =>
        let tailStart := lastIdx - 2
        let tailLines := (lines.take (lastIdx + 1)).drop tailStart
        (joinNL (lines.take tailStart), joinNL tailLines, [])
    | none => ([], [], [])
  else
    let lines := pySplitlines main_text
    let lastContentLine :=
      match lastContentIndex lines with
      | some i => lines.getD i []
      | none => []
    let ms := split_main_text main_text
    (ms.1, ms.2, pyStrip lastContentLine)

/-- The partition rule as the claim states it (amended to physical
lines), written over the content-line index list rather than the source's
reverse scans: the tail is the up-to-3 physical lines ending at the last
content index when the body is sentence-complete, else at the
second-to-last content index with the stripped last content line as
suffix. -/
def specPartition (text : Str) : Str × Str × Str :=
  let lines := pySplitlines text
  let idxs := contentLineIndices lines
  if idxs.isEmpty then ([], [], [])
  else
    let lastIdx := idxs.getD (idxs.length - 1) 0
    if is_sentence_complete text then
      (joinNL (lines.take (lastIdx - 2)),
       joinNL ((lines.take (lastIdx + 1)).drop (lastIdx - 2)), [])
    else
      let sndLast := idxs.getD (idxs.length - 2) 0
      (joinNL (lines.take (sndLast - 2)),
       joinNL ((lines.take (sndLast + 1)).drop (sndLast - 2)),
       pyStrip (lines.getD lastIdx []))

/-- Modelled from the spec: the values the prompt builder reads from the
settings store (`load_settings`, in the `settings` module that is not part
of the sources here) — the caller-configured default rating and the
maximum retained character count for a continuation main part. -/
structure Settings where
  default_rating : Str
  max_context_length : Nat
deriving DecidableEq

/-- `main_part[-max_len:]` applied when `len(main_part) > max_len`.  In
Python `s[-0:]` is the whole string, so a zero maximum keeps everything. -/
def truncateLeft (maxLen : Nat) (s : Str) : Str :=
  if s.length > maxLen then
    if maxLen = 0 then s else s.drop (s.length - maxLen)
  else s

/-- The `ui_data` dictionary passed to `build_prompt`: metadata, the
rating override (the empty string models both an absent key and an empty
override, both falsy in the source), and the author's note. -/
structure UIData where
  metadata : Metadata
  rating : Str
  authors_note : Str
deriving DecidableEq

/-- The metadata dictionary rebuilt at the top of `build_prompt`: title,
synopsis, setting and plot are template-evaluated; keywords, genres and
dialogue_level are passed through. -/
def evalMetadata (choose : List Str → Str) (r : Metadata) : Metadata :=
  { title := evaluate_dynamic_prompt choose r.title
    keywords := r.keywords
    genres := r.genres
    synopsis := evaluate_dynamic_prompt choose r.synopsis
    setting := evaluate_dynamic_prompt choose r.setting
    plot := evaluate_dynamic_prompt choose r.plot
    dialogue_level := r.dialogue_level }

/-- The `(internal_input, prompt_suffix)` pair assembled by `build_prompt`
(lines 283–376) for the classified task. -/
def buildInternalAndSuffix (choose : List Str → Str) (settings : Settings)
    (current_mode main_text : Str) (ui : UIData)
    (cont_prompt_order : Str) : Str × Str :=
  let metadata := evalMetadata choose ui.metadata
  let authors_note := evaluate_dynamic_prompt choose ui.authors_note
  let task := (determine_task_and_instruction current_mode main_text metadata).1
  let metadata_input_string := format_metadata choose metadata current_mode
  match task with
  | .genInfo | .genZero =>
      (metadata_input_string, if !main_text.isEmpty then main_text else [])
  | .ideaInfo | .ideaZero => (metadata_input_string, [])
  | .contInfo | .contZero =>
      let parts := contPartition main_text
      let main_part := truncateLeft settings.max_context_length parts.1
      let tail := parts.2.1
      let prompt_suffix := parts.2.2
      let main_part_block :=
        if !main_part.isEmpty then
          [("【本文】\n```\n").data ++ main_part ++ ("\n```").data]
        else []
      let reference_block :=
        if !metadata_input_string.isEmpty then
          [("【参考情報】\n```\n").data ++ metadata_input_string ++ ("\n```").data]
        else []
      let authors_note_block :=
        if !(pyStrip authors_note).isEmpty then
          [("【オーサーズノート】\n```\n").data ++ pyStrip authors_note ++ ("\n```").data]
        else []
      let orderedBlocks :=
        if cont_prompt_order = ("reference_first").data then
          reference_block ++ main_part_block
        else main_part_block ++ reference_block
      let input_parts :=
        orderedBlocks ++ authors_note_block ++
          (if !tail.isEmpty then [tail] else [])
      (joinNL input_parts, prompt_suffix)

/-- `build_prompt` (prompt_builder.py lines 223–389), with the random
choice of the template evaluator and the settings store passed in as
parameters.  The final formatting (lines 378–389) wraps the instruction
(with its rating) and the input section in the Mistral-instruct
delimiters and appends the prompt suffix. -/
def build_prompt (choose : List Str → Str) (settings : Settings)
    (current_mode main_text : Str) (ui : UIData)
    (cont_prompt_order : Str) : Str :=
  let metadata := evalMetadata choose ui.metadata
  let rating_to_use :=
    if !ui.rating.isEmpty then ui.rating else settings.default_rating
  let ti := determine_task_and_instruction current_mode main_text metadata
  let inpSuf :=
    buildInternalAndSuffix choose settings current_mode main_text ui
      cont_prompt_order
  let final_instruction := ti.2 ++ (" レーティング: ").data ++ rating_to_use
  if !inpSuf.1.isEmpty then
    ("[INST]").data ++ final_instruction ++ '\n' :: inpSuf.1 ++
      ("[/INST]").data ++ inpSuf.2
  else
    ("[INST]").data ++ final_instruction ++ ("[/INST]").data ++ inpSuf.2

/-! ### context_utils.py -/

/-- `get_available_context(true_ctx, max_output_tokens)` (context_utils.py
lines 55–65).  Python integers are modelled as `Int`; the `is None` checks
are modelled by `Option`. -/
def get_available_context (true_ctx : Option Int)
    (max_output_tokens : Option Int) : Option Int :=
  match true_ctx with
  | none => none
  | some tc =>
      match max_output_tokens with
      | none => none
      | some mo =>
          if mo ≤ 0 then none
          else
            let available := tc - mo
            if available > 0 then some available else none

/-! ### The context fitter (spec §4.4)

The `build_prompt_with_compression` coroutine the spec calls
`fit_prompt_to_budget` is not among the sources (only its callers in
`main.py` are), so the token-dynamic fitting loop is modelled from the
spec below.
-/

/-- The `CompressionResult` record of spec §3. -/
structure CompressionResult where
  prompt : Str
  total_tokens : Nat
  overflow : Bool
  original_body_chars : Nat
  compressed_body_chars : Nat
deriving DecidableEq

/-- The token count used for a prompt: the oracle's answer, or the
`len(prompt) // 4` fallback when the oracle fails. -/
def tokensOf (tokenCount : Str → Option Nat) (prompt : Str) : Nat :=
  (tokenCount prompt).getD (prompt.length / 4)

/-- Modelled from the spec: the shrink loop of the token-dynamic mode of
`fit_prompt_to_budget` (spec §4.4), entered when the full prompt is over
budget.  The body is left-trimmed by `step` characters, the prompt rebuilt
and re-measured, until it fits or the body is exhausted.  The `fuel`
argument only bounds the recursion; with `fuel ≥ body.length` and a
positive step the guard branch is never taken. -/
def fitShrink (tokenCount : Str → Option Nat) (assemble : Str → Str)
    (budget step : Nat) (orig : Nat) : Nat → Str → CompressionResult
  | _, [] =>
      { prompt := assemble []
        total_tokens := tokensOf tokenCount (assemble [])
        overflow := true
        original_body_chars := orig
        compressed_body_chars := 0 }
  | 0, body =>
      { prompt := assemble body
        total_tokens := tokensOf tokenCount (assemble body)
        overflow := true
        original_body_chars := orig
        compressed_body_chars := body.length }
  | fuel + 1, body =>
      let body2 := body.drop step
      let prompt := assemble body2
      let t := tokensOf tokenCount prompt
      if t ≤ budget then
        { prompt := prompt
          total_tokens := t
          overflow := false
          original_body_chars := orig
          compressed_body_chars := body2.length }
      else fitShrink tokenCount assemble budget step orig fuel body2

/-- Modelled from the spec: the token-dynamic mode of
`fit_prompt_to_budget` (spec §4.4, `build_prompt_with_compression` in the
sources' callers).  `assemble` rebuilds the prompt from a body snapshot,
`tokenCount` is the token oracle (`none` on failure), `budget` the
available context and `step` the configured shrink step in characters. -/
def fit_prompt_to_budget (tokenCount : Str → Option Nat)
    (assemble : Str → Str) (budget step : Nat) (body : Str) :
    CompressionResult :=
  let prompt0 := assemble body
  let t0 := tokensOf tokenCount prompt0
  if t0 ≤ budget then
    { prompt := prompt0
      total_tokens := t0
      overflow := false
      original_body_chars := body.length
      compressed_body_chars := body.length }
  else fitShrink tokenCount assemble budget step body.length body.length body

/-- The deterministic stub token oracle of the spec's §8 test (token count
is the character count). -/
def tokLen (p : Str) : Option Nat := some p.length

/-! ## Helper lemmas about the template evaluator -/

theorem blockGo_cons_ne {c : Char} (s : Str) (h : c ≠ '@') :
    blockGo none (c :: s) = c :: blockGo none s := by
  rw [blockGo.eq_def]
  split
  · simp_all
  · simp_all
  · rename_i heq; cases heq; simp_all
  · rename_i heq; cases heq; rfl
  · simp_all
  · simp_all

theorem blockGo_id {s : Str} (h : ('@') ∉ s) : blockGo none s = s := by
  induction s with
  | nil => rfl
  | cons c rest ih =>
      have hc : c ≠ '@' := by
        intro hc; exact h (hc ▸ List.mem_cons_self c rest)
      have hr : ('@') ∉ rest := fun hm => h (List.mem_cons_of_mem c hm)
      rw [blockGo_cons_ne rest hc, ih hr]

theorem blockGo_cons_slashes (x : Str) :
    blockGo none ('@' :: '/' :: '/' :: x) =
      '@' :: '/' :: '/' :: blockGo none x := by
  have h1 : blockGo none ('@' :: '/' :: '/' :: x) =
      '@' :: blockGo none ('/' :: '/' :: x) := by
    rw [blockGo.eq_def]
    split <;> simp_all
    simp_all [eq_comm]
  rw [h1, blockGo_cons_ne ('/' :: x) (by decide),
    blockGo_cons_ne x (by decide)]

theorem lineGo_false_cons_ne {c : Char} (s : Str) (h : c ≠ '@') :
    lineGo false (c :: s) = c :: lineGo false s := by
  rw [lineGo.eq_def]
  split
  · simp_all
  · simp_all
  · rename_i heq; cases heq; rfl
  · simp_all
  · simp_all

theorem lineGo_false_id {s : Str} (h : ('@') ∉ s) : lineGo false s = s := by
  induction s with
  | nil => rfl
  | cons c rest ih =>
      have hc : c ≠ '@' := by
        intro hc; exact h (hc ▸ List.mem_cons_self c rest)
      have hr : ('@') ∉ rest := fun hm => h (List.mem_cons_of_mem c hm)
      rw [lineGo_false_cons_ne rest hc, ih hr]

theorem lineGo_true_cons_ne {c : Char} (s : Str) (h : c ≠ '\n') :
    lineGo true (c :: s) = lineGo true s := by
  rw [lineGo.eq_def]
  split
  · simp_all
  · simp_all
  · simp_all
  · rename_i heq; cases heq; simp_all
  · rename_i heq; cases heq; rfl

theorem lineGo_true_append {l : Str} (s : Str) (h : ('\n') ∉ l) :
    lineGo true (l ++ s) = lineGo true s := by
  induction l with
  | nil => rfl
  | cons c rest ih =>
      have hc : c ≠ '\n' := by
        intro hc; exact h (hc ▸ List.mem_cons_self c rest)
      have hr : ('\n') ∉ rest := fun hm => h (List.mem_cons_of_mem c hm)
      rw [List.cons_append, lineGo_true_cons_ne (rest ++ s) hc, ih hr]

theorem findSub_eq_none {c : Char} {p s : Str} (h : c ∉ s) :
    findSub (c :: p) s = none := by
  induction s with
  | nil => rfl
  | cons d rest ih =>
      have hd : c ≠ d := by
        intro hc; exact h (hc ▸ List.mem_cons_self d rest)
      have hr : c ∉ rest := fun hm => h (List.mem_cons_of_mem d hm)
      rw [findSub]
      have hpre : (c :: p).isPrefixOf (d :: rest) = false := by
        simp [List.isPrefixOf, hd]
      simp [hpre, ih hr]

theorem rfindSub_eq_none {c : Char} {p s : Str} (h : c ∉ s) :
    rfindSub (c :: p) s = none := by
  induction s with
  | nil => rfl
  | cons d rest ih =>
      have hd : c ≠ d := by
        intro hc; exact h (hc ▸ List.mem_cons_self d rest)
      have hr : c ∉ rest := fun hm => h (List.mem_cons_of_mem d hm)
      rw [rfindSub, ih hr]
      have hpre : (c :: p).isPrefixOf (d :: rest) = false := by
        simp [List.isPrefixOf, hd]
      simp [hpre]

theorem applyRangeMarkers_id {s : Str} (h : ('@') ∉ s) :
    applyRangeMarkers s = s := by
  unfold applyRangeMarkers
  rw [show (("@break").data) = '@' :: ("break").data from rfl,
    show (("@startpoint").data) = '@' :: ("startpoint").data from rfl,
    rfindSub_eq_none h, rfindSub_eq_none h]
  simp

theorem applyEndpointMarker_id {s : Str} (h : ('@') ∉ s) :
    applyEndpointMarker s = s := by
  unfold applyEndpointMarker
  rw [show (("@endpoint").data) = '@' :: ("endpoint").data from rfl,
    findSub_eq_none h]

theorem dynGo_cons_ne {choose : List Str → Str} {c : Char} (buf s : Str)
    (h : c ≠ '}') :
    dynGo choose (some buf) (c :: s) = dynGo choose (some (c :: buf)) s := by
  rw [dynGo.eq_def]
  split <;> simp_all

theorem dynGo_buffer {choose : List Str → Str} {content : Str} (buf s : Str)
    (h : ('}') ∉ content) :
    dynGo choose (some buf) (content ++ s) =
      dynGo choose (some (content.reverse ++ buf)) s := by
  induction content generalizing buf with
  | nil => rfl
  | cons c rest ih =>
      have hc : c ≠ '}' := by
        intro hc; exact h (hc ▸ List.mem_cons_self c rest)
      have hr : ('}') ∉ rest := fun hm => h (List.mem_cons_of_mem c hm)
      rw [List.cons_append, dynGo_cons_ne buf (rest ++ s) hc, ih (c :: buf) hr]
      simp

theorem dynGo_open {choose : List Str → Str} (x : Str) :
    dynGo choose none ('{' :: x) = dynGo choose (some []) x := rfl

theorem dynGo_close {choose : List Str → Str} (buf rest : Str) :
    dynGo choose (some buf) ('}' :: rest) =
      (if buf.isEmpty then ['{', '}'] else replaceMatch choose buf.reverse) ++
        dynGo choose none rest := rfl

/-! ## C5 — line-comment deletion -/

/-- C5: the claim as stated is false — the match of `@//.*?$` stops
*before* the line terminator (`$` is a zero-width anchor), so evaluating
`"@//comment\nrest"` yields `"\nrest"`, not `"rest"`. -/
theorem C5_counterexample :
    evaluate_dynamic_prompt chooseHead (("@//comment\nrest").data) ≠
        (("rest").data) ∧
      evaluate_dynamic_prompt chooseHead (("@//comment\nrest").data) =
        (("\nrest").data) := by
  constructor <;> decide

/-- C5 (amended): a line comment is deleted from `@//` up to but *not*
including the newline that ends the line; in particular a text
`"@//" ++ comment ++ "\n" ++ rest` (with no newline or `@` in the comment
and no `@` or `{` in the remainder) evaluates to `"\n" ++ rest` — the
comment is removed, its trailing newline is kept. -/
theorem C5_line_comment_strip (choose : List Str → Str) (comment rest : Str)
    (hn : ('\n') ∉ comment) (hc : ('@') ∉ comment) (hr : ('@') ∉ rest)
    (hb : ('{') ∉ rest) :
    evaluate_dynamic_prompt choose
        (("@//").data ++ (comment ++ ('\n' :: rest))) = '\n' :: rest := by
  have hmem : ('@') ∉ comment ++ ('\n' :: rest) := by
    intro hm
    rcases List.mem_append.mp hm with h | h
    · exact hc h
    · rcases List.mem_cons.mp h with h | h
      · exact absurd h (by decide)
      · exact hr h
  have h1 : blockCommentStrip (("@//").data ++ (comment ++ ('\n' :: rest))) =
      ("@//").data ++ (comment ++ ('\n' :: rest)) := by
    show blockGo none ('@' :: '/' :: '/' :: (comment ++ ('\n' :: rest))) = _
    rw [blockGo_cons_slashes, blockGo_id hmem]
    rfl
  have h2 : lineCommentStrip (("@//").data ++ (comment ++ ('\n' :: rest))) =
      '\n' :: rest := by
    show lineGo false ('@' :: '/' :: '/' :: (comment ++ ('\n' :: rest))) = _
    have hstep : lineGo false ('@' :: '/' :: '/' :: (comment ++ ('\n' :: rest)))
        = lineGo true (comment ++ ('\n' :: rest)) := rfl
    rw [hstep, lineGo_true_append ('\n' :: rest) hn]
    have hnl : lineGo true ('\n' :: rest) = '\n' :: lineGo false rest := rfl
    rw [hnl, lineGo_false_id hr]
  have hat : ('@') ∉ ('\n' :: rest) := by
    intro hm
    rcases List.mem_cons.mp hm with h | h
    · exact absurd h (by decide)
    · exact hr h
  have hbrace : ('{') ∉ ('\n' :: rest) := by
    intro hm
    rcases List.mem_cons.mp hm with h | h
    · exact absurd h (by decide)
    · exact hb h
  unfold evaluate_dynamic_prompt
  simp only [h1, h2, applyRangeMarkers_id hat, applyEndpointMarker_id hat]
  exact if_neg hbrace

/-- C5 witness: the amended statement at a concrete comment and rest. -/
theorem C5_witness :
    evaluate_dynamic_prompt chooseHead
        (("@//").data ++ ((("abc").data) ++ ('\n' :: ("rest").data))) =
      '\n' :: ("rest").data :=
  C5_line_comment_strip chooseHead (("abc").data) (("rest").data)
    (by decide) (by decide) (by decide) (by decide)

/-! ## C6 — identity on brace-free input -/

/-- C6: the claim as stated is false — `"@//x"` contains no `{` but is not
returned unchanged: comment stripping runs before the `{` test, so the
evaluator returns the empty string. -/
theorem C6_counterexample :
    ('{') ∉ (("@//x").data) ∧
      evaluate_dynamic_prompt chooseHead (("@//x").data) ≠ (("@//x").data) := by
  constructor <;> decide

/-- C6 (amended): every input containing neither `{` nor `@` (so no
alternative group, no comment and no range marker) is returned unchanged
by the evaluator. -/
theorem C6_no_brace_no_at_identity (choose : List Str → Str) (s : Str)
    (hb : ('{') ∉ s) (ha : ('@') ∉ s) :
    evaluate_dynamic_prompt choose s = s := by
  have h1 : blockCommentStrip s = s := blockGo_id ha
  have h2 : lineCommentStrip s = s := lineGo_false_id ha
  unfold evaluate_dynamic_prompt
  simp only [h1, h2, applyRangeMarkers_id ha, applyEndpointMarker_id ha]
  exact if_neg hb

/-- C6 witness: the amended identity at a concrete marker-free string. -/
theorem C6_witness :
    evaluate_dynamic_prompt chooseHead (("hello world").data) =
      (("hello world").data) :=
  C6_no_brace_no_at_identity chooseHead (("hello world").data)
    (by decide) (by decide)

/-! ## C9 — graceful degradation of empty alternative groups -/

/-- C9: the evaluator is total and an alternative group whose contents
parse to zero options is left verbatim, braces included: `"{}"` and
`"{||}"` evaluate to themselves for every selection function, and in
general `"{" ++ content ++ "}"` is returned verbatim whenever the content
is non-empty, brace- and marker-free, and parses to no options. -/
theorem C9_zero_option_groups (choose : List Str → Str) :
    evaluate_dynamic_prompt choose (("{}").data) = (("{}").data) ∧
    evaluate_dynamic_prompt choose (("{||}").data) = (("{||}").data) ∧
    ∀ content : Str, content ≠ [] → ('}') ∉ content → ('@') ∉ content →
      parseOptions content = [] →
      evaluate_dynamic_prompt choose ('{' :: (content ++ [('}')])) =
        '{' :: (content ++ [('}')]) := by
  refine ⟨rfl, rfl, fun content hne hcl hat hopts => ?_⟩
  have hmem : ('@') ∉ '{' :: (content ++ [('}')]) := by
    intro hm
    rcases List.mem_cons.mp hm with h | h
    · exact absurd h (by decide)
    · rcases List.mem_append.mp h with h | h
      · exact hat h
      · rcases List.mem_cons.mp h with h | h
        · exact absurd h (by decide)
        · exact absurd h (List.not_mem_nil _)
  have h1 : blockCommentStrip ('{' :: (content ++ [('}')]))
      = '{' :: (content ++ [('}')]) := blockGo_id hmem
  have h2 : lineCommentStrip ('{' :: (content ++ [('}')]))
      = '{' :: (content ++ [('}')]) := lineGo_false_id hmem
  unfold evaluate_dynamic_prompt
  simp only [h1, h2, applyRangeMarkers_id hmem, applyEndpointMarker_id hmem]
  rw [if_pos (List.mem_cons_self _ _), dynGo_open,
    dynGo_buffer [] [('}')] hcl, List.append_nil, dynGo_close]
  have hrev : content.reverse.isEmpty = false := by
    cases content with
    | nil => exact absurd rfl hne
    | cons c cs => simp [List.isEmpty_iff]
  rw [hrev]
  simp only [Bool.false_eq_true, if_false, List.reverse_reverse]
  unfold replaceMatch
  rw [hopts]
  simp [dynGo]

/-- C9 witness: the general clause at the concrete content `"||"`. -/
theorem C9_witness :
    evaluate_dynamic_prompt chooseHead ('{' :: ((("||").data) ++ [('}')])) =
      '{' :: ((("||").data) ++ [('}')]) :=
  (C9_zero_option_groups chooseHead).2.2 (("||").data)
    (by decide) (by decide) (by decide) (by decide)

/-! ## C10 — `get_available_context` never yields a non-positive budget -/

/-- C10: `get_available_context` returns `none` exactly when `true_ctx` is
missing, `max_output_tokens` is missing or non-positive, or the difference
is non-positive; any returned value is the strictly positive difference
`true_ctx - max_output_tokens`. -/
theorem C10_available_context_positive
    (true_ctx max_output_tokens : Option Int) :
    (get_available_context true_ctx max_output_tokens = none ↔
      true_ctx = none ∨ max_output_tokens = none ∨
      (∃ mo, max_output_tokens = some mo ∧ mo ≤ 0) ∨
      (∃ tc mo, true_ctx = some tc ∧ max_output_tokens = some mo ∧
        tc - mo ≤ 0)) ∧
    (∀ v, get_available_context true_ctx max_output_tokens = some v →
      0 < v ∧ ∃ tc mo, true_ctx = some tc ∧ max_output_tokens = some mo ∧
        v = tc - mo) := by
  cases true_ctx with
  | none => simp [get_available_context]
  | some tc =>
      cases max_output_tokens with
      | none => simp [get_available_context]
      | some mo =>
          by_cases hmo : mo ≤ 0
          · simp [get_available_context, hmo]
          · by_cases hav : tc - mo > 0
            · constructor
              · simp [get_available_context, hmo, hav]
                omega
              · intro v hv
                simp [get_available_context, hmo, hav] at hv
                exact ⟨by omega, tc, mo, rfl, rfl, hv.symm⟩
            · constructor
              · simp [get_available_context, hmo, hav]
                omega
              · intro v hv
                simp [get_available_context, hmo, hav] at hv

/-- C10 witness: the characterization applied at a context of 100 tokens
and an output reservation of 30. -/
theorem C10_witness :
    0 < (70 : Int) ∧ ∃ tc mo, some (100 : Int) = some tc ∧
      some (30 : Int) = some mo ∧ (70 : Int) = tc - mo :=
  (C10_available_context_positive (some 100) (some 30)).2 70 (by decide)

/-! ## C1 — the token-dynamic fitting loop -/

/-- Invariant of the shrink loop: entered over budget with enough fuel, it
either stops the first time a rebuilt prompt fits (overflow false, the
reported token count is the measured count of the reported prompt and is
within budget) or exhausts the body (overflow true, zero retained
characters, and even the empty-body prompt measures over budget). -/
theorem fitShrink_spec (tok : Str → Option Nat) (assemble : Str → Str)
    (budget step orig : Nat) (hstep : 1 ≤ step) :
    ∀ fuel body, body.length ≤ fuel →
      budget < tokensOf tok (assemble body) →
      ((fitShrink tok assemble budget step orig fuel body).original_body_chars
          = orig) ∧
      ((fitShrink tok assemble budget step orig fuel body).overflow = false →
        (fitShrink tok assemble budget step orig fuel body).total_tokens ≤
            budget ∧
        (fitShrink tok assemble budget step orig fuel body).total_tokens =
          tokensOf tok
            (fitShrink tok assemble budget step orig fuel body).prompt) ∧
      ((fitShrink tok assemble budget step orig fuel body).overflow = true →
        (fitShrink tok assemble budget step orig fuel body).compressed_body_chars
            = 0 ∧
        (fitShrink tok assemble budget step orig fuel body).prompt =
            assemble [] ∧
        budget < tokensOf tok (assemble [])) := by
  intro fuel
  induction fuel with
  | zero =>
      intro body hlen hbud
      have hb : body = [] := List.length_eq_zero.mp (Nat.le_zero.mp hlen)
      subst hb
      exact ⟨rfl, fun h => by simp [fitShrink] at h, fun _ => ⟨rfl, rfl, hbud⟩⟩
  | succ f ih =>
      intro body hlen hbud
      cases body with
      | nil =>
          exact ⟨rfl, fun h => by simp [fitShrink] at h,
            fun _ => ⟨rfl, rfl, hbud⟩⟩
      | cons c cs =>
          by_cases hfit :
              tokensOf tok (assemble ((c :: cs).drop step)) ≤ budget
          · have heq : fitShrink tok assemble budget step orig (f + 1)
                (c :: cs) =
                { prompt := assemble ((c :: cs).drop step)
                  total_tokens := tokensOf tok (assemble ((c :: cs).drop step))
                  overflow := false
                  original_body_chars := orig
                  compressed_body_chars := ((c :: cs).drop step).length } := by
              simp [fitShrink, hfit]
            rw [heq]
            exact ⟨rfl, fun _ => ⟨hfit, rfl⟩, fun h => by simp at h⟩
          · have heq : fitShrink tok assemble budget step orig (f + 1)
                (c :: cs) =
                fitShrink tok assemble budget step orig f
                  ((c :: cs).drop step) := by
              simp [fitShrink, hfit]
            rw [heq]
            apply ih
            · have hdl : ((c :: cs).drop step).length =
                  (c :: cs).length - step := List.length_drop step (c :: cs)
              have hcc : (c :: cs).length ≤ f + 1 := hlen
              omega
            · exact Nat.lt_of_not_le hfit

/-- C1: the token-dynamic fitting loop, with any token oracle (including
failing ones, replaced by the `len // 4` fallback) and any positive step:
it returns at once with `overflow = false` and `compressed = original`
when the first prompt fits; otherwise every result with `overflow = false`
reports a measured token count within budget, every result with
`overflow = true` has trimmed the whole body away and even the empty-body
prompt measures over budget, and the reported original size is always the
body's size.  Totality of the definition is the termination claim. -/
theorem C1_fit_prompt_to_budget (tok : Str → Option Nat)
    (assemble : Str → Str) (budget step : Nat) (body : Str)
    (hstep : 1 ≤ step) :
    (tokensOf tok (assemble body) ≤ budget →
      fit_prompt_to_budget tok assemble budget step body =
        { prompt := assemble body
          total_tokens := tokensOf tok (assemble body)
          overflow := false
          original_body_chars := body.length
          compressed_body_chars := body.length }) ∧
    ((fit_prompt_to_budget tok assemble budget step body).original_body_chars
        = body.length) ∧
    ((fit_prompt_to_budget tok assemble budget step body).overflow = false →
      (fit_prompt_to_budget tok assemble budget step body).total_tokens ≤
          budget ∧
      (fit_prompt_to_budget tok assemble budget step body).total_tokens =
        tokensOf tok
          (fit_prompt_to_budget tok assemble budget step body).prompt) ∧
    ((fit_prompt_to_budget tok assemble budget step body).overflow = true →
      budget < tokensOf tok (assemble body) ∧
      (fit_prompt_to_budget tok assemble budget step
          body).compressed_body_chars = 0 ∧
      budget < tokensOf tok (assemble [])) := by
  by_cases h0 : tokensOf tok (assemble body) ≤ budget
  · have heq : fit_prompt_to_budget tok assemble budget step body =
        { prompt := assemble body
          total_tokens := tokensOf tok (assemble body)
          overflow := false
          original_body_chars := body.length
          compressed_body_chars := body.length } := by
      simp [fit_prompt_to_budget, h0]
    rw [heq]
    exact ⟨fun _ => rfl, rfl, fun _ => ⟨h0, rfl⟩, fun h => by simp at h⟩
  · have heq : fit_prompt_to_budget tok assemble budget step body =
        fitShrink tok assemble budget step body.length body.length body := by
      simp [fit_prompt_to_budget, h0]
    have hbud : budget < tokensOf tok (assemble body) := Nat.lt_of_not_le h0
    have hs := fitShrink_spec tok assemble budget step body.length hstep
      body.length body (Nat.le_refl _) hbud
    rw [heq]
    exact ⟨fun hfits => absurd hfits h0, hs.1, hs.2.1,
      fun hov => ⟨hbud, (hs.2.2 hov).1, (hs.2.2 hov).2.2⟩⟩

/-- C1 witness: with the stub oracle, budget 2 and step 1, the four-byte
body is trimmed until the prompt fits. -/
theorem C1_witness :
    (fit_prompt_to_budget tokLen id 2 1 (("abcd").data)).overflow = false ∧
    (fit_prompt_to_budget tokLen id 2 1 (("abcd").data)).total_tokens ≤ 2 := by
  have h := C1_fit_prompt_to_budget tokLen id 2 1 (("abcd").data) (by decide)
  exact ⟨by decide, (h.2.2.1 (by decide)).1⟩

/-! ## Lemmas about blank texts and their lines -/

theorem dropWhile_forall_iff (p : Char → Bool) (s : Str) :
    (∀ c ∈ s.dropWhile p, p c = true) ↔ ∀ c ∈ s, p c = true := by
  constructor
  · intro h c hc
    rcases List.mem_append.mp
        ((List.takeWhile_append_dropWhile (p := p) (l := s)) ▸ hc) with h1 | h1
    · exact List.mem_takeWhile_imp h1
    · exact h c h1
  · intro h c hc
    exact h c ((List.dropWhile_sublist (p := p) (l := s)).mem hc)

theorem pyStrip_eq_nil_iff (s : Str) :
    pyStrip s = [] ↔ ∀ c ∈ s, isPySpace c = true := by
  unfold pyStrip pyRStrip pyLStrip
  rw [List.reverse_eq_nil_iff, List.dropWhile_eq_nil_iff]
  constructor
  · intro h c hc
    exact (dropWhile_forall_iff isPySpace s).mp
      (fun d hd => h d (List.mem_reverse.mpr hd)) c hc
  · intro h c hc
    exact h c ((List.dropWhile_sublist (p := isPySpace) (l := s)).mem
      (List.mem_reverse.mp hc))

theorem splitlinesGo_rn (acc rest : Str) :
    splitlinesGo acc ('\r' :: '\n' :: rest) =
      acc.reverse :: (if rest.isEmpty then [] else splitlinesGo [] rest) :=
  rfl

theorem splitlinesGo_n (acc rest : Str) :
    splitlinesGo acc ('\n' :: rest) =
      acc.reverse :: (if rest.isEmpty then [] else splitlinesGo [] rest) :=
  rfl

theorem splitlinesGo_r_step (acc rest : Str) (h : ∀ r, rest ≠ '\n' :: r) :
    splitlinesGo acc ('\r' :: rest) =
      acc.reverse :: (if rest.isEmpty then [] else splitlinesGo [] rest) := by
  rcases rest with _ | ⟨d, ds⟩
  · rfl
  · have hd : d ≠ '\n' := fun hdeq => h ds (by rw [hdeq])
    rw [splitlinesGo.eq_def]
    split
    all_goals simp_all
    all_goals simp_all [eq_comm]

theorem splitlinesGo_cons_ne (acc : Str) {c : Char} (rest : Str)
    (h1 : c ≠ '\n') (h2 : c ≠ '\r') :
    splitlinesGo acc (c :: rest) = splitlinesGo (c :: acc) rest := by
  rw [splitlinesGo.eq_def]
  split
  all_goals simp_all

theorem splitlinesGo_chars :
    ∀ acc s, ∀ l ∈ splitlinesGo acc s, ∀ c ∈ l, c ∈ acc ∨ c ∈ s := by
  intro acc s
  induction acc, s using splitlinesGo.induct with
  | case1 acc =>
      intro l hl c hc
      rw [show splitlinesGo acc [] = [acc.reverse] from rfl] at hl
      rcases List.mem_singleton.mp hl with rfl
      exact Or.inl (List.mem_reverse.mp hc)
  | case2 acc rest ih =>
      intro l hl c hc
      rw [splitlinesGo_rn] at hl
      rcases List.mem_cons.mp hl with rfl | hl2
      · exact Or.inl (List.mem_reverse.mp hc)
      · rcases rest with _ | ⟨d, ds⟩
        · simp at hl2
        · rcases ih l hl2 c hc with h | h
          · simp at h
          · exact Or.inr (List.mem_cons_of_mem _ (List.mem_cons_of_mem _ h))
  | case3 acc rest ih =>
      intro l hl c hc
      rw [splitlinesGo_n] at hl
      rcases List.mem_cons.mp hl with rfl | hl2
      · exact Or.inl (List.mem_reverse.mp hc)
      · rcases rest with _ | ⟨d, ds⟩
        · simp at hl2
        · rcases ih l hl2 c hc with h | h
          · simp at h
          · exact Or.inr (List.mem_cons_of_mem _ h)
  | case4 acc rest hne ih =>
      intro l hl c hc
      rw [splitlinesGo_r_step acc rest (fun r hr => hne r hr)] at hl
      rcases List.mem_cons.mp hl with rfl | hl2
      · exact Or.inl (List.mem_reverse.mp hc)
      · rcases rest with _ | ⟨d, ds⟩
        · simp at hl2
        · rcases ih l hl2 c hc with h | h
          · simp at h
          · exact Or.inr (List.mem_cons_of_mem _ h)
  | case5 acc d rest hne1 hne2 hne3 ih =>
      intro l hl c hc
      rw [splitlinesGo_cons_ne acc rest (fun h => hne2 h) (fun h => hne3 h)]
        at hl
      rcases ih l hl c hc with h | h
      · rcases List.mem_cons.mp h with rfl | h2
        · exact Or.inr (List.mem_cons_self _ _)
        · exact Or.inl h2
      · exact Or.inr (List.mem_cons_of_mem _ h)

theorem pySplitlines_chars {text : Str} {l : Str} (hl : l ∈ pySplitlines text) :
    ∀ c ∈ l, c ∈ text := by
  intro c hc
  cases text with
  | nil => simp [pySplitlines] at hl
  | cons d ds =>
      have h := splitlinesGo_chars [] (d :: ds) l hl c hc
      rcases h with h | h
      · simp at h
      · exact h

theorem countContent_eq_zero_of_strip_nil {text : Str}
    (h : pyStrip text = []) : countContentLines text = 0 := by
  unfold countContentLines contentLines
  rw [List.length_eq_zero, List.filter_eq_nil_iff]
  intro l hl
  have hall : ∀ c ∈ l, isPySpace c = true := fun c hc =>
    (pyStrip_eq_nil_iff text).mp h c (pySplitlines_chars hl c hc)
  simp [isContentLine, List.isEmpty_iff, (pyStrip_eq_nil_iff l).mpr hall]

/-! ## C3 — the task classifier -/

theorem determine_generate_lt4 (text : Str) (m : Metadata)
    (h4 : countContentLines text < 4) :
    (determine_task_and_instruction (("generate").data) text m).1 =
      (if (!(pyStrip m.title).isEmpty || !m.keywords.isEmpty ||
          !m.genres.isEmpty || !(pyStrip m.synopsis).isEmpty ||
          !(pyStrip m.setting).isEmpty || !(pyStrip m.plot).isEmpty ||
          m.dialogue_level.isSome) = true then
        TaskType.genInfo
      else TaskType.genZero) := by
  by_cases hmt : (pyStrip text).isEmpty <;>
    simp only [determine_task_and_instruction, countContentLines] at * <;>
    simp [hmt, h4]

theorem determine_generate_ge4 (text : Str) (m : Metadata)
    (h4 : 4 ≤ countContentLines text) :
    (determine_task_and_instruction (("generate").data) text m).1 =
      (if (!(pyStrip m.title).isEmpty || !m.keywords.isEmpty ||
          !m.genres.isEmpty || !(pyStrip m.synopsis).isEmpty ||
          !(pyStrip m.setting).isEmpty || !(pyStrip m.plot).isEmpty ||
          m.dialogue_level.isSome) = true then
        TaskType.contInfo
      else TaskType.contZero) := by
  have hmt : (pyStrip text).isEmpty = false := by
    rcases h : (pyStrip text).isEmpty with _ | _
    · rfl
    · have := countContent_eq_zero_of_strip_nil (List.isEmpty_iff.mp h)
      omega
  have hnlt : ¬ countContentLines text < 4 := Nat.not_lt.mpr h4
  simp only [determine_task_and_instruction, countContentLines] at *
  simp [hmt, hnlt]

theorem determine_idea (text : Str) (m : Metadata) :
    (determine_task_and_instruction (("idea").data) text m).1 =
      (if (!(pyStrip m.title).isEmpty || !m.keywords.isEmpty ||
          !m.genres.isEmpty || !(pyStrip m.synopsis).isEmpty ||
          !(pyStrip m.setting).isEmpty || !(pyStrip m.plot).isEmpty) = true then
        TaskType.ideaInfo
      else TaskType.ideaZero) := by
  simp [determine_task_and_instruction]

theorem determine_unknown (mode text : Str) (m : Metadata)
    (h1 : mode ≠ ("generate").data) (h2 : mode ≠ ("idea").data) :
    (determine_task_and_instruction mode text m).1 = TaskType.genZero := by
  simp only [determine_task_and_instruction]
  rw [if_neg h1, if_neg h2]

/-- C3: `determine_task_and_instruction` as a pure case table.  In
generate mode a body with fewer than 4 non-blank lines (including the
empty body) yields GEN_INFO / GEN_ZERO by presence of any of title,
keywords, genres, synopsis, setting, plot, dialogue_level, and a body with
4 or more non-blank lines yields CONT_INFO / CONT_ZERO by the same test;
in idea mode the same six fields excluding dialogue_level choose between
IDEA_INFO and IDEA_ZERO; any unknown mode yields GEN_ZERO. -/
theorem C3_classifier (mode text : Str) (m : Metadata) :
    (mode = ("generate").data →
      (countContentLines text < 4 →
        (determine_task_and_instruction mode text m).1 =
          (if pyStrip m.title ≠ [] ∨ m.keywords ≠ [] ∨ m.genres ≠ [] ∨
              pyStrip m.synopsis ≠ [] ∨ pyStrip m.setting ≠ [] ∨
              pyStrip m.plot ≠ [] ∨ m.dialogue_level.isSome = true then
            TaskType.genInfo
          else TaskType.genZero)) ∧
      (4 ≤ countContentLines text →
        (determine_task_and_instruction mode text m).1 =
          (if pyStrip m.title ≠ [] ∨ m.keywords ≠ [] ∨ m.genres ≠ [] ∨
              pyStrip m.synopsis ≠ [] ∨ pyStrip m.setting ≠ [] ∨
              pyStrip m.plot ≠ [] ∨ m.dialogue_level.isSome = true then
            TaskType.contInfo
          else TaskType.contZero))) ∧
    (mode = ("idea").data →
      (determine_task_and_instruction mode text m).1 =
        (if pyStrip m.title ≠ [] ∨ m.keywords ≠ [] ∨ m.genres ≠ [] ∨
            pyStrip m.synopsis ≠ [] ∨ pyStrip m.setting ≠ [] ∨
            pyStrip m.plot ≠ [] then
          TaskType.ideaInfo
        else TaskType.ideaZero)) ∧
    (mode ≠ ("generate").data → mode ≠ ("idea").data →
      (determine_task_and_instruction mode text m).1 = TaskType.genZero) := by
  have hGenIff :
      ((!(pyStrip m.title).isEmpty || !m.keywords.isEmpty ||
        !m.genres.isEmpty || !(pyStrip m.synopsis).isEmpty ||
        !(pyStrip m.setting).isEmpty || !(pyStrip m.plot).isEmpty ||
        m.dialogue_level.isSome) = true) ↔
      (pyStrip m.title ≠ [] ∨ m.keywords ≠ [] ∨ m.genres ≠ [] ∨
       pyStrip m.synopsis ≠ [] ∨ pyStrip m.setting ≠ [] ∨
       pyStrip m.plot ≠ [] ∨ m.dialogue_level.isSome = true) := by
    simp [List.isEmpty_iff, or_assoc]
  have hIdeaIff :
      ((!(pyStrip m.title).isEmpty || !m.keywords.isEmpty ||
        !m.genres.isEmpty || !(pyStrip m.synopsis).isEmpty ||
        !(pyStrip m.setting).isEmpty || !(pyStrip m.plot).isEmpty) = true) ↔
      (pyStrip m.title ≠ [] ∨ m.keywords ≠ [] ∨ m.genres ≠ [] ∨
       pyStrip m.synopsis ≠ [] ∨ pyStrip m.setting ≠ [] ∨
       pyStrip m.plot ≠ []) := by
    simp [List.isEmpty_iff, or_assoc]
  refine ⟨?_, ?_, ?_⟩
  · rintro rfl
    constructor
    · intro h4
      rw [determine_generate_lt4 text m h4]
      by_cases hg : pyStrip m.title ≠ [] ∨ m.keywords ≠ [] ∨ m.genres ≠ [] ∨
          pyStrip m.synopsis ≠ [] ∨ pyStrip m.setting ≠ [] ∨
          pyStrip m.plot ≠ [] ∨ m.dialogue_level.isSome = true
      · rw [if_pos hg, if_pos (hGenIff.mpr hg)]
      · rw [if_neg hg, if_neg (fun hb => hg (hGenIff.mp hb))]
    · intro h4
      rw [determine_generate_ge4 text m h4]
      by_cases hg : pyStrip m.title ≠ [] ∨ m.keywords ≠ [] ∨ m.genres ≠ [] ∨
          pyStrip m.synopsis ≠ [] ∨ pyStrip m.setting ≠ [] ∨
          pyStrip m.plot ≠ [] ∨ m.dialogue_level.isSome = true
      · rw [if_pos hg, if_pos (hGenIff.mpr hg)]
      · rw [if_neg hg, if_neg (fun hb => hg (hGenIff.mp hb))]
  · rintro rfl
    rw [determine_idea text m]
    by_cases hg : pyStrip m.title ≠ [] ∨ m.keywords ≠ [] ∨ m.genres ≠ [] ∨
        pyStrip m.synopsis ≠ [] ∨ pyStrip m.setting ≠ [] ∨ pyStrip m.plot ≠ []
    · rw [if_pos hg, if_pos (hIdeaIff.mpr hg)]
    · rw [if_neg hg, if_neg (fun hb => hg (hIdeaIff.mp hb))]
  · exact determine_unknown mode text m

/-- C3 witness: the spec's own fixtures — empty everything in generate
mode gives GEN_ZERO, five content lines with no metadata give CONT_ZERO,
two content lines with a title give GEN_INFO, idea mode with empty
everything gives IDEA_ZERO. -/
theorem C3_witness :
    (determine_task_and_instruction (("generate").data) []
        ⟨[], [], [], [], [], [], none⟩).1 = TaskType.genZero ∧
    (determine_task_and_instruction (("generate").data)
        (("a\nb\nc\nd\ne").data) ⟨[], [], [], [], [], [], none⟩).1 =
      TaskType.contZero ∧
    (determine_task_and_instruction (("generate").data) (("a\nb").data)
        ⟨("t").data, [], [], [], [], [], none⟩).1 = TaskType.genInfo ∧
    (determine_task_and_instruction (("idea").data) []
        ⟨[], [], [], [], [], [], none⟩).1 = TaskType.ideaZero := by
  refine ⟨?_, ?_, ?_, ?_⟩
  · rw [((C3_classifier (("generate").data) []
      ⟨[], [], [], [], [], [], none⟩).1 rfl).1 (by decide)]
    decide
  · rw [((C3_classifier (("generate").data) (("a\nb\nc\nd\ne").data)
      ⟨[], [], [], [], [], [], none⟩).1 rfl).2 (by decide)]
    decide
  · rw [((C3_classifier (("generate").data) (("a\nb").data)
      ⟨("t").data, [], [], [], [], [], none⟩).1 rfl).1 (by decide)]
    decide
  · rw [(C3_classifier (("idea").data) []
      ⟨[], [], [], [], [], [], none⟩).2.1 rfl]
    decide

/-! ## Lemmas for the continuation-task partition (C2, C7) -/

theorem pyStrip_decomp (s : Str) :
    ∃ a b, s = a ++ (pyStrip s ++ b) ∧
      (∀ c ∈ a, isPySpace c = true) ∧ (∀ c ∈ b, isPySpace c = true) := by
  refine ⟨s.takeWhile isPySpace,
    ((pyLStrip s).reverse.takeWhile isPySpace).reverse, ?_, ?_, ?_⟩
  · have hy : pyStrip s ++ ((pyLStrip s).reverse.takeWhile isPySpace).reverse
        = pyLStrip s := by
      show ((pyLStrip s).reverse.dropWhile isPySpace).reverse ++
          ((pyLStrip s).reverse.takeWhile isPySpace).reverse = pyLStrip s
      rw [← List.reverse_append,
        List.takeWhile_append_dropWhile isPySpace (pyLStrip s).reverse,
        List.reverse_reverse]
    conv_lhs => rw [← List.takeWhile_append_dropWhile (p := isPySpace)
      (l := s)]
    rw [hy]
    rfl
  · intro c hc
    exact List.mem_takeWhile_imp hc
  · intro c hc
    exact List.mem_takeWhile_imp (List.mem_reverse.mp hc)

theorem mem_pyStrip_of_not_space {s : Str} {c : Char} (hc : c ∈ s)
    (hns : isPySpace c = false) : c ∈ pyStrip s := by
  obtain ⟨a, b, hdec, ha, hb⟩ := pyStrip_decomp s
  rw [hdec] at hc
  rcases List.mem_append.mp hc with h | h
  · exact absurd (ha c h) (by simp [hns])
  · rcases List.mem_append.mp h with h2 | h2
    · exact h2
    · exact absurd (hb c h2) (by simp [hns])

theorem chars_pyStrip_subset {s : Str} {c : Char} (hc : c ∈ pyStrip s) :
    c ∈ s := by
  obtain ⟨a, b, hdec, _, _⟩ := pyStrip_decomp s
  rw [hdec]
  exact List.mem_append.mpr (Or.inr (List.mem_append.mpr (Or.inl hc)))

theorem isContentLine_pyStrip (l : Str) :
    isContentLine (pyStrip l) = isContentLine l := by
  rcases h : isContentLine l with _ | _
  · have hl : pyStrip l = [] := by
      simpa [isContentLine, List.isEmpty_iff] using h
    rw [hl]
    rfl
  · have hl : pyStrip l ≠ [] := by
      simpa [isContentLine, List.isEmpty_iff] using h
    have hex : ∃ c ∈ l, isPySpace c = false := by
      by_contra hno
      push_neg at hno
      exact hl ((pyStrip_eq_nil_iff l).mpr (fun c hc => by
        rcases hh : isPySpace c with _ | _
        · exact absurd hh (hno c hc)
        · rfl))
    obtain ⟨c, hc, hns⟩ := hex
    have hmem : c ∈ pyStrip l := mem_pyStrip_of_not_space hc hns
    have : pyStrip (pyStrip l) ≠ [] := by
      intro hnil
      exact absurd ((pyStrip_eq_nil_iff (pyStrip l)).mp hnil c hmem)
        (by simp [hns])
    simp [isContentLine, List.isEmpty_iff, this]

theorem splitlinesGo_noTerm :
    ∀ acc s, ('\n') ∉ acc → ('\r') ∉ acc →
      ∀ l ∈ splitlinesGo acc s, ('\n') ∉ l ∧ ('\r') ∉ l := by
  intro acc s
  induction acc, s using splitlinesGo.induct with
  | case1 acc =>
      intro hn hr l hl
      rcases List.mem_singleton.mp hl with rfl
      exact ⟨fun h => hn (List.mem_reverse.mp h),
        fun h => hr (List.mem_reverse.mp h)⟩
  | case2 acc rest ih =>
      intro hn hr l hl
      rw [splitlinesGo_rn] at hl
      rcases List.mem_cons.mp hl with rfl | hl2
      · exact ⟨fun h => hn (List.mem_reverse.mp h),
          fun h => hr (List.mem_reverse.mp h)⟩
      · rcases rest with _ | ⟨d, ds⟩
        · simp at hl2
        · exact ih (by simp) (by simp) l hl2
  | case3 acc rest ih =>
      intro hn hr l hl
      rw [splitlinesGo_n] at hl
      rcases List.mem_cons.mp hl with rfl | hl2
      · exact ⟨fun h => hn (List.mem_reverse.mp h),
          fun h => hr (List.mem_reverse.mp h)⟩
      · rcases rest with _ | ⟨d, ds⟩
        · simp at hl2
        · exact ih (by simp) (by simp) l hl2
  | case4 acc rest hne ih =>
      intro hn hr l hl
      rw [splitlinesGo_r_step acc rest (fun r hr2 => hne r hr2)] at hl
      rcases List.mem_cons.mp hl with rfl | hl2
      · exact ⟨fun h => hn (List.mem_reverse.mp h),
          fun h => hr (List.mem_reverse.mp h)⟩
      · rcases rest with _ | ⟨d, ds⟩
        · simp at hl2
        · exact ih (by simp) (by simp) l hl2
  | case5 acc d rest hne1 hne2 hne3 ih =>
      intro hn hr l hl
      rw [splitlinesGo_cons_ne acc rest (fun h => hne2 h) (fun h => hne3 h)]
        at hl
      refine ih ?_ ?_ l hl
      · intro h
        rcases List.mem_cons.mp h with rfl | h2
        · exact hne2 rfl
        · exact hn h2
      · intro h
        rcases List.mem_cons.mp h with rfl | h2
        · exact hne3 rfl
        · exact hr h2

theorem pySplitlines_noTerm {text l : Str} (hl : l ∈ pySplitlines text) :
    ('\n') ∉ l ∧ ('\r') ∉ l := by
  cases text with
  | nil => simp [pySplitlines] at hl
  | cons d ds =>
      exact splitlinesGo_noTerm [] (d :: ds) (by simp) (by simp) l hl

theorem splitlinesGo_noTerm_whole (acc : Str) :
    ∀ l, ('\n') ∉ l → ('\r') ∉ l →
      splitlinesGo acc l = [acc.reverse ++ l] := by
  intro l
  induction l generalizing acc with
  | nil => intro _ _; simp [splitlinesGo]
  | cons c cs ih =>
      intro hn hr
      have hc1 : c ≠ '\n' := fun h => hn (h ▸ List.mem_cons_self c cs)
      have hc2 : c ≠ '\r' := fun h => hr (h ▸ List.mem_cons_self c cs)
      rw [splitlinesGo_cons_ne acc cs hc1 hc2,
        ih (c :: acc) (fun h => hn (List.mem_cons_of_mem c h))
          (fun h => hr (List.mem_cons_of_mem c h))]
      simp

theorem splitlinesGo_line_break (acc : Str) :
    ∀ l s, ('\n') ∉ l → ('\r') ∉ l →
      splitlinesGo acc (l ++ '\n' :: s) =
        (acc.reverse ++ l) :: (if s.isEmpty then [] else splitlinesGo [] s) := by
  intro l
  induction l generalizing acc with
  | nil => intro s _ _; simp [splitlinesGo_n]
  | cons c cs ih =>
      intro s hn hr
      have hc1 : c ≠ '\n' := fun h => hn (h ▸ List.mem_cons_self c cs)
      have hc2 : c ≠ '\r' := fun h => hr (h ▸ List.mem_cons_self c cs)
      rw [List.cons_append, splitlinesGo_cons_ne acc (cs ++ '\n' :: s) hc1 hc2,
        ih (c :: acc) s (fun h => hn (List.mem_cons_of_mem c h))
          (fun h => hr (List.mem_cons_of_mem c h))]
      simp

theorem pySplitlines_single {l : Str} (hne : l ≠ []) (hn : ('\n') ∉ l)
    (hr : ('\r') ∉ l) : pySplitlines l = [l] := by
  cases l with
  | nil => exact absurd rfl hne
  | cons c cs =>
      show splitlinesGo [] (c :: cs) = [c :: cs]
      rw [splitlinesGo_noTerm_whole [] (c :: cs) hn hr]
      simp

theorem pySplitlines_join_cons {l : Str} (t : Str) (hn : ('\n') ∉ l)
    (hr : ('\r') ∉ l) :
    pySplitlines (l ++ '\n' :: t) = l :: pySplitlines t := by
  have hne : l ++ '\n' :: t ≠ [] := by simp
  have : pySplitlines (l ++ '\n' :: t) = splitlinesGo [] (l ++ '\n' :: t) := by
    cases h : l ++ '\n' :: t with
    | nil => exact absurd h hne
    | cons d ds => rw [← h]; rw [h]; rfl
  rw [this, splitlinesGo_line_break [] l t hn hr]
  rcases t with _ | ⟨d, ds⟩
  · simp [pySplitlines]
  · simp [pySplitlines]

theorem contentLines_joinNL (ls : List Str)
    (h : ∀ l ∈ ls, ('\n') ∉ l ∧ ('\r') ∉ l) :
    contentLines (joinNL ls) = ls.filter isContentLine := by
  induction ls with
  | nil => rfl
  | cons l rest ih =>
      rcases rest with _ | ⟨l2, ls2⟩
      · have hj : joinNL [l] = l := by
          simp [joinNL, List.intercalate]
        by_cases hl : l = []
        · subst hl
          rw [hj]
          rfl
        · have hterm := h l (List.mem_cons_self _ _)
          unfold contentLines
          rw [hj, pySplitlines_single hl hterm.1 hterm.2]
      · have hjoin : joinNL (l :: l2 :: ls2) =
            l ++ '\n' :: joinNL (l2 :: ls2) := rfl
        have hterm := h l (List.mem_cons_self _ _)
        unfold contentLines
        rw [hjoin, pySplitlines_join_cons (joinNL (l2 :: ls2)) hterm.1
          hterm.2, List.filter_cons, List.filter_cons]
        have ihr := ih (fun x hx => h x (List.mem_cons_of_mem l hx))
        unfold contentLines at ihr
        rw [ihr]

theorem contentIdxAux_length (ls : List Str) :
    ∀ n, (contentIdxAux n ls).length = (ls.filter isContentLine).length := by
  induction ls with
  | nil => intro n; rfl
  | cons l rest ih =>
      intro n
      by_cases h : isContentLine l <;>
        simp [contentIdxAux, List.filter_cons, h, ih]

theorem contentIdxAux_ge (ls : List Str) :
    ∀ n, ∀ i ∈ contentIdxAux n ls, n ≤ i := by
  induction ls with
  | nil => intro n i hi; simp [contentIdxAux] at hi
  | cons l rest ih =>
      intro n i hi
      by_cases h : isContentLine l
      · rw [show contentIdxAux n (l :: rest) =
            n :: contentIdxAux (n + 1) rest from by simp [contentIdxAux, h]]
          at hi
        rcases List.mem_cons.mp hi with rfl | hi2
        · exact Nat.le_refl i
        · exact Nat.le_trans (Nat.le_succ n) (ih (n + 1) i hi2)
      · rw [show contentIdxAux n (l :: rest) = contentIdxAux (n + 1) rest
            from by simp [contentIdxAux, h]] at hi
        exact Nat.le_trans (Nat.le_succ n) (ih (n + 1) i hi)

theorem contentIdxAux_getD_ge (ls : List Str) (n k : Nat)
    (hk : k < (contentIdxAux n ls).length) :
    n ≤ (contentIdxAux n ls).getD k 0 := by
  apply contentIdxAux_ge ls n
  rw [List.getD_eq_getElem?_getD, List.getElem?_eq_getElem hk]
  exact List.getElem_mem _

theorem contentIdxAux_take_filter (ls : List Str) :
    ∀ n k, k < (contentIdxAux n ls).length →
      (ls.take ((contentIdxAux n ls).getD k 0 - n + 1)).filter isContentLine =
        (ls.filter isContentLine).take (k + 1) := by
  induction ls with
  | nil => intro n k hk; simp [contentIdxAux] at hk
  | cons l rest ih =>
      intro n k hk
      by_cases h : isContentLine l
      · have haux : contentIdxAux n (l :: rest) =
            n :: contentIdxAux (n + 1) rest := by simp [contentIdxAux, h]
        rcases k with _ | k2
        · rw [haux]
          simp [List.filter_cons, h]
        · rw [haux] at hk ⊢
          have hk2 : k2 < (contentIdxAux (n + 1) rest).length := by
            simpa using hk
          have hge : n + 1 ≤ (contentIdxAux (n + 1) rest).getD k2 0 :=
            contentIdxAux_getD_ge rest (n + 1) k2 hk2
          have hgd : (n :: contentIdxAux (n + 1) rest).getD (k2 + 1) 0 =
              (contentIdxAux (n + 1) rest).getD k2 0 := by
            simp [List.getD]
          rw [hgd]
          have hi : (contentIdxAux (n + 1) rest).getD k2 0 - n + 1 =
              ((contentIdxAux (n + 1) rest).getD k2 0 - (n + 1) + 1) + 1 := by
            omega
          rw [hi, List.take_succ_cons, List.filter_cons, List.filter_cons]
          simp only [h, if_true]
          rw [ih (n + 1) k2 hk2, List.take_succ_cons]
      · have haux : contentIdxAux n (l :: rest) =
            contentIdxAux (n + 1) rest := by simp [contentIdxAux, h]
        rw [haux] at hk ⊢
        have hge : n + 1 ≤ (contentIdxAux (n + 1) rest).getD k 0 :=
          contentIdxAux_getD_ge rest (n + 1) k hk
        have hi : (contentIdxAux (n + 1) rest).getD k 0 - n + 1 =
            ((contentIdxAux (n + 1) rest).getD k 0 - (n + 1) + 1) + 1 := by
          omega
        rw [hi, List.take_succ_cons, List.filter_cons, List.filter_cons]
        simp only [h, if_false, Bool.false_eq_true]
        rw [ih (n + 1) k hk]

theorem contentIdxAux_getLast? (ls : List Str) :
    ∀ n, (contentIdxAux n ls).getLast? =
      (lastContentIndex ls).map (fun i => n + i) := by
  induction ls with
  | nil => intro n; rfl
  | cons l rest ih =>
      intro n
      rcases hrec : lastContentIndex rest with _ | i
      · have hnil : contentIdxAux (n + 1) rest = [] := by
          have := ih (n + 1)
          rw [hrec] at this
          simpa using this
        by_cases h : isContentLine l
        · rw [show contentIdxAux n (l :: rest) =
              n :: contentIdxAux (n + 1) rest from by simp [contentIdxAux, h],
            hnil,
            show lastContentIndex (l :: rest) = some 0 from by
              simp [lastContentIndex, hrec, h]]
          simp
        · rw [show contentIdxAux n (l :: rest) = contentIdxAux (n + 1) rest
              from by simp [contentIdxAux, h], hnil,
            show lastContentIndex (l :: rest) = none from by
              simp [lastContentIndex, hrec, h]]
          rfl
      · have hlast := ih (n + 1)
        rw [hrec] at hlast
        have hLrec : lastContentIndex (l :: rest) = some (i + 1) := by
          simp [lastContentIndex, hrec]
        have hne : contentIdxAux (n + 1) rest ≠ [] := by
          intro hnil
          rw [hnil] at hlast
          simp at hlast
        by_cases h : isContentLine l
        · rw [show contentIdxAux n (l :: rest) =
              n :: contentIdxAux (n + 1) rest from by simp [contentIdxAux, h],
            hLrec, List.getLast?_cons, hlast]
          simp [List.getLast?_eq_none_iff, hne]
          omega
        · rw [show contentIdxAux n (l :: rest) = contentIdxAux (n + 1) rest
              from by simp [contentIdxAux, h], hLrec, hlast]
          simp
          omega

theorem filter_eq_nil_of_lastContent_none {ls : List Str}
    (h : lastContentIndex ls = none) : ls.filter isContentLine = [] := by
  induction ls with
  | nil => rfl
  | cons l rest ih =>
      rcases hrec : lastContentIndex rest with _ | i
      · by_cases hc : isContentLine l
        · rw [show lastContentIndex (l :: rest) = some 0 from by
            simp [lastContentIndex, hrec, hc]] at h
          simp at h
        · rw [List.filter_cons]
          simp only [hc, if_false, Bool.false_eq_true]
          exact ih hrec
      · rw [show lastContentIndex (l :: rest) = some (i + 1) from by
          simp [lastContentIndex, hrec]] at h
        simp at h

theorem filter_getLast?_of_lastContent {ls : List Str} {L : Nat}
    (h : lastContentIndex ls = some L) :
    (ls.filter isContentLine).getLast? = some (ls.getD L []) := by
  induction ls generalizing L with
  | nil => simp [lastContentIndex] at h
  | cons l rest ih =>
      rcases hrec : lastContentIndex rest with _ | i
      · have hnil : rest.filter isContentLine = [] :=
          filter_eq_nil_of_lastContent_none hrec
        by_cases hc : isContentLine l
        · rw [show lastContentIndex (l :: rest) = some 0 from by
            simp [lastContentIndex, hrec, hc]] at h
          rcases Option.some.inj h with rfl
          rw [List.filter_cons]
          simp [hc, hnil]
        · rw [show lastContentIndex (l :: rest) = none from by
            simp [lastContentIndex, hrec, hc]] at h
          simp at h
      · rw [show lastContentIndex (l :: rest) = some (i + 1) from by
          simp [lastContentIndex, hrec]] at h
        rcases Option.some.inj h with rfl
        have hih := ih hrec
        have hne : rest.filter isContentLine ≠ [] := by
          intro hnil
          rw [hnil] at hih
          simp at hih
        rw [List.filter_cons]
        by_cases hc : isContentLine l
        · simp only [hc, if_true]
          rw [List.getLast?_cons, hih]
          simp [List.getLast?_eq_none_iff, hne, hih]
        · simp only [hc, if_false, Bool.false_eq_true]
          rw [hih]
          simp

theorem getD_of_getLast? {l : List Nat} {a : Nat}
    (h : l.getLast? = some a) : l.getD (l.length - 1) 0 = a := by
  rw [List.getD_eq_getElem?_getD, ← List.getLast?_eq_getElem?, h]
  rfl

/-! ## C2 — the continuation partition round-trip -/

theorem take_filter_at_idx (lines : List Str) (k : Nat)
    (hk : k < (contentIdxAux 0 lines).length) :
    (lines.take ((contentIdxAux 0 lines).getD k 0 + 1)).filter isContentLine =
      (lines.filter isContentLine).take (k + 1) := by
  have h := contentIdxAux_take_filter lines 0 k hk
  simpa using h

theorem parts_filter_concat (lines : List Str) (e : Nat) :
    (lines.take (e - 2)).filter isContentLine ++
      ((lines.take (e + 1)).drop (e - 2)).filter isContentLine =
      (lines.take (e + 1)).filter isContentLine := by
  rw [← List.filter_append]
  congr 1
  rw [show lines.take (e - 2) = (lines.take (e + 1)).take (e - 2) from by
    rw [List.take_take, Nat.min_eq_left (by omega)]]
  exact List.take_append_drop (e - 2) (lines.take (e + 1))

theorem contentLines_strip_line {lines : List Str} {lastLine : Str}
    (hmem : lastLine ∈ lines)
    (hterm : ∀ l ∈ lines, ('\n') ∉ l ∧ ('\r') ∉ l)
    (hcontent : isContentLine lastLine = true) :
    contentLines (pyStrip lastLine) = [pyStrip lastLine] := by
  have hs0 : isContentLine (pyStrip lastLine) = true := by
    rw [isContentLine_pyStrip]; exact hcontent
  have hne : pyStrip lastLine ≠ [] := by
    intro hnil
    rw [show isContentLine lastLine = !(pyStrip lastLine).isEmpty from rfl,
      hnil] at hcontent
    simp at hcontent
  have hterml := hterm lastLine hmem
  have hn : ('\n') ∉ pyStrip lastLine :=
    fun h => hterml.1 (chars_pyStrip_subset h)
  have hr : ('\r') ∉ pyStrip lastLine :=
    fun h => hterml.2 (chars_pyStrip_subset h)
  unfold contentLines
  rw [pySplitlines_single hne hn hr, List.filter_cons]
  simp [hs0]

/-- C2: the claim as stated is false — for the body `"a\nb\nc\n d "`
(four non-blank lines, not sentence-complete) the partition's suffix is
the *stripped* last line `"d"`, so concatenating the three parts loses the
surrounding whitespace of `" d "` and does not recover the original
non-blank-line sequence. -/
theorem C2_counterexample :
    contentLines (contPartition (("a\nb\nc\n d ").data)).1 ++
        contentLines (contPartition (("a\nb\nc\n d ").data)).2.1 ++
        contentLines (contPartition (("a\nb\nc\n d ").data)).2.2 ≠
      contentLines (("a\nb\nc\n d ").data) := by
  decide

/-- C2 (amended): for every CONT body (4 or more non-blank lines), the
partition computed before the configured-maximum truncation satisfies:
concatenating the non-blank lines of main_part, tail and suffix recovers
the body's non-blank-line sequence exactly when the body is
sentence-complete, and recovers it with the final line replaced by its
whitespace-stripped form otherwise. -/
theorem C2_partition_roundtrip (text : Str)
    (h4 : 4 ≤ (contentLines text).length) :
    contentLines (contPartition text).1 ++
        contentLines (contPartition text).2.1 ++
        contentLines (contPartition text).2.2 =
      (if is_sentence_complete text then contentLines text
       else (contentLines text).dropLast ++
         [pyStrip (((contentLines text).getLast?).getD [])]) := by
  have hfl : contentLines text = (pySplitlines text).filter isContentLine :=
    rfl
  have hterm : ∀ l ∈ pySplitlines text, ('\n') ∉ l ∧ ('\r') ∉ l :=
    fun l hl => pySplitlines_noTerm hl
  have hlen : (contentIdxAux 0 (pySplitlines text)).length =
      ((pySplitlines text).filter isContentLine).length :=
    contentIdxAux_length (pySplitlines text) 0
  rcases hL : lastContentIndex (pySplitlines text) with _ | L
  · have := filter_eq_nil_of_lastContent_none hL
    rw [hfl, this] at h4
    simp at h4
  · have hlast : (contentIdxAux 0 (pySplitlines text)).getLast? = some L := by
      rw [contentIdxAux_getLast? (pySplitlines text) 0, hL]
      simp
    have hLd : (contentIdxAux 0 (pySplitlines text)).getD
        ((contentIdxAux 0 (pySplitlines text)).length - 1) 0 = L :=
      getD_of_getLast? hlast
    have hglast : ((pySplitlines text).filter isContentLine).getLast? =
        some ((pySplitlines text).getD L []) :=
      filter_getLast?_of_lastContent hL
    have hLmem : (pySplitlines text).getD L [] ∈
        (pySplitlines text).filter isContentLine := by
      have hne : ((pySplitlines text).filter isContentLine) ≠ [] := by
        intro hnil
        rw [hfl, hnil] at h4
        simp at h4
      rcases hfe : (pySplitlines text).filter isContentLine with _ | ⟨a, as⟩
      · exact absurd hfe hne
      · rw [← hfe]
        rw [hfe] at hglast
        exact (List.getLast?_eq_some_iff.mp hglast).elim
          (fun t ht => by rw [hfe, ht]; simp)
    have hLcontent : isContentLine ((pySplitlines text).getD L []) = true :=
      (List.mem_filter.mp hLmem).2
    have hLmem2 : (pySplitlines text).getD L [] ∈ pySplitlines text :=
      (List.mem_filter.mp hLmem).1
    by_cases hsc : is_sentence_complete text
    · have hcp : contPartition text =
          (joinNL ((pySplitlines text).take (L - 2)),
           joinNL (((pySplitlines text).take (L + 1)).drop (L - 2)), []) := by
        simp [contPartition, hsc, hL]
      rw [hcp, if_pos hsc]
      show contentLines (joinNL ((pySplitlines text).take (L - 2))) ++
          contentLines (joinNL (((pySplitlines text).take (L + 1)).drop
            (L - 2))) ++ contentLines [] = contentLines text
      rw [contentLines_joinNL _ (fun l hl =>
          hterm l (List.take_subset _ _ hl)),
        contentLines_joinNL _ (fun l hl =>
          hterm l (List.take_subset _ _ (List.drop_subset _ _ hl))),
        show contentLines [] = [] from rfl, List.append_nil,
        parts_filter_concat]
      have hk : (contentIdxAux 0 (pySplitlines text)).length - 1 <
          (contentIdxAux 0 (pySplitlines text)).length := by
        rw [hlen, ← hfl]
        omega
      have htf := take_filter_at_idx (pySplitlines text) _ hk
      rw [hLd] at htf
      rw [htf, hfl]
      have hfull : (contentIdxAux 0 (pySplitlines text)).length - 1 + 1 =
          ((pySplitlines text).filter isContentLine).length := by
        rw [hlen, ← hfl]
        omega
      rw [hfull, List.take_length]
    · have hcp : contPartition text =
          ((split_main_text text).1, (split_main_text text).2,
            pyStrip ((pySplitlines text).getD L [])) := by
        simp [contPartition, hsc, hL]
      have htne : text.isEmpty = false := by
        rcases text with _ | ⟨c, cs⟩
        · rw [hfl] at h4
          simp [pySplitlines] at h4
        · rfl
      have hguard : ¬ (contentLineIndices (pySplitlines text)).length < 4 := by
        show ¬ (contentIdxAux 0 (pySplitlines text)).length < 4
        rw [hlen, ← hfl]
        omega
      have hsm : split_main_text text =
          (joinNL ((pySplitlines text).take
            ((contentIdxAux 0 (pySplitlines text)).getD
              ((contentIdxAux 0 (pySplitlines text)).length - 2) 0 - 2)),
           joinNL (((pySplitlines text).take
            ((contentIdxAux 0 (pySplitlines text)).getD
              ((contentIdxAux 0 (pySplitlines text)).length - 2) 0 + 1)).drop
            ((contentIdxAux 0 (pySplitlines text)).getD
              ((contentIdxAux 0 (pySplitlines text)).length - 2) 0 - 2))) := by
        simp [split_main_text, htne, contentLineIndices, hguard]
        intro hlt
        exfalso
        rw [hlen, ← hfl] at hlt
        omega
      rw [hcp, if_neg hsc]
      show contentLines (split_main_text text).1 ++
          contentLines (split_main_text text).2 ++
          contentLines (pyStrip ((pySplitlines text).getD L [])) =
        (contentLines text).dropLast ++
          [pyStrip (((contentLines text).getLast?).getD [])]
      rw [hsm]
      rw [contentLines_joinNL _ (fun l hl =>
          hterm l (List.take_subset _ _ hl)),
        contentLines_joinNL _ (fun l hl =>
          hterm l (List.take_subset _ _ (List.drop_subset _ _ hl))),
        parts_filter_concat,
        contentLines_strip_line hLmem2 hterm hLcontent]
      have hk : (contentIdxAux 0 (pySplitlines text)).length - 2 <
          (contentIdxAux 0 (pySplitlines text)).length := by
        rw [hlen, ← hfl]
        omega
      have htf := take_filter_at_idx (pySplitlines text) _ hk
      rw [htf, hfl]
      have hdl : (contentIdxAux 0 (pySplitlines text)).length - 2 + 1 =
          ((pySplitlines text).filter isContentLine).length - 1 := by
        rw [hlen, ← hfl]
        omega
      rw [hdl, ← List.dropLast_eq_take]
      rw [hglast]
      rfl

/-- C2 witness: the amended round-trip at the concrete body
`"a\nb\nc\n d "`. -/
theorem C2_witness :
    contentLines (contPartition (("a\nb\nc\n d ").data)).1 ++
        contentLines (contPartition (("a\nb\nc\n d ").data)).2.1 ++
        contentLines (contPartition (("a\nb\nc\n d ").data)).2.2 =
      (if is_sentence_complete (("a\nb\nc\n d ").data) then
        contentLines (("a\nb\nc\n d ").data)
       else (contentLines (("a\nb\nc\n d ").data)).dropLast ++
         [pyStrip (((contentLines (("a\nb\nc\n d ").data)).getLast?).getD
           [])]) :=
  C2_partition_roundtrip (("a\nb\nc\n d ").data) (by decide)

/-! ## C4 — final prompt formatting -/

/-- C4: for every mode, task and input, the assembled prompt is the
instruction-open delimiter, the instruction text, `" レーティング: "` and
the rating (the caller's override when non-empty, otherwise the configured
default), then a newline and the input section — both absent when the
input section is empty — then the instruction-close delimiter and the
suffix. -/
theorem C4_final_formatting (choose : List Str → Str) (settings : Settings)
    (mode text : Str) (ui : UIData) (order : Str) :
    build_prompt choose settings mode text ui order =
      ("[INST]").data ++
        (determine_task_and_instruction mode text
          (evalMetadata choose ui.metadata)).2 ++
        (" レーティング: ").data ++
        (if ui.rating = [] then settings.default_rating else ui.rating) ++
        (if (buildInternalAndSuffix choose settings mode text ui order).1 = []
         then []
         else
           '\n' ::
             (buildInternalAndSuffix choose settings mode text ui order).1) ++
        ("[/INST]").data ++
        (buildInternalAndSuffix choose settings mode text ui order).2 := by
  unfold build_prompt
  by_cases h2 :
      (buildInternalAndSuffix choose settings mode text ui order).1 = [] <;>
    by_cases h3 : ui.rating = [] <;>
      simp [h2, h3, List.isEmpty_iff, List.append_assoc]

/-! ## C7 — the suffix / tail selection rule -/

/-- C7: the claim as stated is false — the tail consists of up-to-3
*physical* lines, not up-to-3 non-blank lines.  For the sentence-complete
body `"a。\nb。\nc。\n\nd。"` the code's tail is `"c。\n\nd。"` (two
non-blank lines and one blank line), while the claim's "last up-to-3
non-blank lines" would be `"b。\nc。\nd。"`. -/
theorem C7_counterexample :
    contentLines (contPartition (("a。\nb。\nc。\n\nd。").data)).2.1 ≠
      (contentLines (("a。\nb。\nc。\n\nd。").data)).drop
        ((contentLines (("a。\nb。\nc。\n\nd。").data)).length - 3) := by
  decide

/-- C7 (amended): for every CONT body, the partition follows the
sentence-completion rule with *physical* lines: when the body's last
non-blank content ends with `。`, `」`, or a trailing newline after
non-blank content, the suffix is empty and the tail is the up-to-3
physical lines ending at the last non-blank line; otherwise the suffix is
the last non-blank line stripped, and the tail is the up-to-3 physical
lines ending at the second-to-last non-blank line — equivalently, the
source's reverse-scan-and-split computation equals the rule written over
the content-line index list. -/
theorem C7_partition_rule (text : Str)
    (h4 : 4 ≤ (contentLines text).length) :
    contPartition text = specPartition text := by
  have hfl : contentLines text = (pySplitlines text).filter isContentLine :=
    rfl
  have hlen : (contentIdxAux 0 (pySplitlines text)).length =
      ((pySplitlines text).filter isContentLine).length :=
    contentIdxAux_length (pySplitlines text) 0
  rcases hL : lastContentIndex (pySplitlines text) with _ | L
  · have := filter_eq_nil_of_lastContent_none hL
    rw [hfl, this] at h4
    simp at h4
  · have hlast : (contentIdxAux 0 (pySplitlines text)).getLast? = some L := by
      rw [contentIdxAux_getLast? (pySplitlines text) 0, hL]
      simp
    have hLd : (contentIdxAux 0 (pySplitlines text)).getD
        ((contentIdxAux 0 (pySplitlines text)).length - 1) 0 = L :=
      getD_of_getLast? hlast
    have hne : (contentIdxAux 0 (pySplitlines text)).isEmpty = false := by
      rcases hc : contentIdxAux 0 (pySplitlines text) with _ | ⟨a, as⟩
      · rw [hc] at hlast
        simp at hlast
      · rfl
    by_cases hsc : is_sentence_complete text
    · have hcp : contPartition text =
          (joinNL ((pySplitlines text).take (L - 2)),
           joinNL (((pySplitlines text).take (L + 1)).drop (L - 2)), []) := by
        simp [contPartition, hsc, hL]
      rw [hcp]
      simp only [specPartition, contentLineIndices, hne, Bool.false_eq_true,
        if_false, hsc, if_true, hLd]
    · have htne : text.isEmpty = false := by
        rcases text with _ | ⟨c, cs⟩
        · rw [hfl] at h4
          simp [pySplitlines] at h4
        · rfl
      have hguard : ¬ (contentIdxAux 0 (pySplitlines text)).length < 4 := by
        rw [hlen, ← hfl]
        omega
      have hcp : contPartition text =
          ((split_main_text text).1, (split_main_text text).2,
            pyStrip ((pySplitlines text).getD L [])) := by
        simp [contPartition, hsc, hL]
      have hsm : split_main_text text =
          (joinNL ((pySplitlines text).take
            ((contentIdxAux 0 (pySplitlines text)).getD
              ((contentIdxAux 0 (pySplitlines text)).length - 2) 0 - 2)),
           joinNL (((pySplitlines text).take
            ((contentIdxAux 0 (pySplitlines text)).getD
              ((contentIdxAux 0 (pySplitlines text)).length - 2) 0 + 1)).drop
            ((contentIdxAux 0 (pySplitlines text)).getD
              ((contentIdxAux 0 (pySplitlines text)).length - 2) 0 - 2))) := by
        simp [split_main_text, htne, contentLineIndices, hguard]
      rw [hcp, hsm]
      simp only [specPartition, contentLineIndices, hne, Bool.false_eq_true,
        if_false, hsc, hLd]

/-- C7 witness: the amended rule at the sentence-complete concrete body
`"a。\nb。\nc。\n\nd。"`. -/
theorem C7_witness :
    contPartition (("a。\nb。\nc。\n\nd。").data) =
      specPartition (("a。\nb。\nc。\n\nd。").data) :=
  C7_partition_rule (("a。\nb。\nc。\n\nd。").data) (by decide)

/-! ## C8 — lemmas relating the resumed scans to occurrence sets -/

theorem filterMap_ext {α β : Type} (l : List α) (f g : α → Option β)
    (h : ∀ x ∈ l, f x = g x) : l.filterMap f = l.filterMap g := by
  induction l with
  | nil => rfl
  | cons a rest ih =>
      rw [List.filterMap_cons, List.filterMap_cons,
        h a (List.mem_cons_self _ _),
        ih (fun x hx => h x (List.mem_cons_of_mem a hx))]

theorem filterMap_range_head_none {β : Type} (n : Nat)
    (f : Nat → Option β) (h0 : f 0 = none) (hn : 0 < n) :
    (List.range n).filterMap f =
      (List.range (n - 1)).filterMap (fun j => f (1 + j)) := by
  have hsplit : List.range n = List.range 1 ++
      (List.range (n - 1)).map (fun j => 1 + j) := by
    rw [← List.range_add]
    congr 1
    omega
  rw [hsplit, List.filterMap_append, List.filterMap_map]
  simp [List.range_succ, h0]
  rfl

theorem filterMap_range_only_head {β : Type} (m : Nat) (a : β)
    (f : Nat → Option β) (h0 : f 0 = some a)
    (hz : ∀ j, 0 < j → j < m → f j = none) (hm : 0 < m) :
    (List.range m).filterMap f = [a] := by
  induction m with
  | zero => omega
  | succ k ih =>
      rw [List.range_succ, List.filterMap_append]
      rcases Nat.eq_zero_or_pos k with rfl | hk
      · simp [h0]
      · rw [ih (fun j hj1 hj2 => hz j hj1 (by omega)) hk]
        have : f k = none := hz k hk (by omega)
        simp [this]

theorem filterMap_range_match {β : Type} (n m : Nat) (a : β)
    (f : Nat → Option β) (h0 : f 0 = some a)
    (hz : ∀ j, 0 < j → j < m → f j = none) (hm : 0 < m) (hmn : m ≤ n) :
    (List.range n).filterMap f =
      a :: (List.range (n - m)).filterMap (fun j => f (m + j)) := by
  have hsplit : List.range n = List.range m ++
      (List.range (n - m)).map (fun j => m + j) := by
    rw [← List.range_add]
    congr 1
    omega
  rw [hsplit, List.filterMap_append, List.filterMap_map,
    filterMap_range_only_head m a f h0 hz hm]
  rfl

theorem map_filter_filterMap {α β γ : Type} (l : List α)
    (g : α → Option β) (pred : β → Bool) (f : β → γ) :
    (((l.filterMap g).filter pred).map f) =
      l.filterMap (fun x =>
        match g x with
        | some m => if pred m then some (f m) else none
        | none => none) := by
  induction l with
  | nil => rfl
  | cons a rest ih =>
      rw [List.filterMap_cons, List.filterMap_cons]
      rcases hg : g a with _ | m
      · exact ih
      · rcases hp : pred m with _ | _
        · simp [List.filter_cons, hp, ih]
        · simp [List.filter_cons, hp, ih]

theorem finditerF_occurrences (pats : List Str)
    (hpos : ∀ p ∈ pats, p ≠ [])
    (hover : ∀ (t : Str) (p : Str),
      pats.find? (fun q => q.isPrefixOf t) = some p →
      ∀ k, 0 < k → k < p.length →
        pats.find? (fun q => q.isPrefixOf (t.drop k)) = none) :
    ∀ fuel (s : Str) i, s.length ≤ fuel →
      finditerF pats fuel i s =
        (List.range s.length).filterMap (fun j =>
          (pats.find? (fun q => q.isPrefixOf (s.drop j))).map
            (fun p => (i + j, i + j + p.length))) := by
  intro fuel
  induction fuel with
  | zero =>
      intro s i hlen
      have hs : s = [] := List.length_eq_zero.mp (Nat.le_zero.mp hlen)
      subst hs
      rfl
  | succ f ih =>
      intro s i hlen
      rcases s with _ | ⟨c, rest⟩
      · rfl
      · rcases hfind : pats.find? (fun q => q.isPrefixOf (c :: rest))
          with _ | p
        · have hstep : finditerF pats (f + 1) i (c :: rest) =
              finditerF pats f (i + 1) rest := by
            simp [finditerF, hfind]
          have hlen2 : rest.length ≤ f := by
            simp at hlen
            omega
          rw [hstep, ih rest (i + 1) hlen2]
          have hrhs := filterMap_range_head_none ((c :: rest).length)
            (fun j =>
              (pats.find? (fun q => q.isPrefixOf ((c :: rest).drop j))).map
                (fun p => (i + j, i + j + p.length)))
            (by simp [hfind]) (by simp)
          rw [hrhs, show (c :: rest).length - 1 = rest.length from by simp]
          apply filterMap_ext
          intro j hj
          show (pats.find? (fun q => q.isPrefixOf (rest.drop j))).map
              (fun p => (i + 1 + j, i + 1 + j + p.length)) =
            (pats.find? (fun q =>
              q.isPrefixOf ((c :: rest).drop (1 + j)))).map
              (fun p => (i + (1 + j), i + (1 + j) + p.length))
          have hdrop : (c :: rest).drop (1 + j) = rest.drop j := by
            rw [Nat.add_comm]
            rfl
          rw [hdrop]
          simp only [Nat.add_assoc]
        · have hp : p ∈ pats := List.mem_of_find?_eq_some hfind
          have hpre : p.isPrefixOf (c :: rest) = true := by
            have := List.find?_some hfind
            simpa using this
          have hplen : 0 < p.length := by
            rcases p with _ | ⟨d, ds⟩
            · exact absurd rfl (hpos [] hp)
            · simp
          have hple : p.length ≤ (c :: rest).length :=
            (List.isPrefixOf_iff_prefix.mp hpre).length_le
          have hstep : finditerF pats (f + 1) i (c :: rest) =
              (i, i + p.length) ::
                finditerF pats f (i + p.length) ((c :: rest).drop p.length)
              := by
            simp [finditerF, hfind]
          have hlen3 : ((c :: rest).drop p.length).length ≤ f := by
            rw [List.length_drop, show (c :: rest).length = rest.length + 1
              from by simp]
            simp at hlen
            omega
          rw [hstep, ih ((c :: rest).drop p.length) (i + p.length) hlen3]
          have hrhs := filterMap_range_match ((c :: rest).length) p.length
            (i, i + p.length)
            (fun j =>
              (pats.find? (fun q => q.isPrefixOf ((c :: rest).drop j))).map
                (fun p2 => (i + j, i + j + p2.length)))
            (by simp [hfind]) (fun j hj1 hj2 => by
              rw [show (fun j =>
                  (pats.find? (fun q => q.isPrefixOf ((c :: rest).drop j))).map
                    (fun p2 => (i + j, i + j + p2.length))) j =
                  (pats.find? (fun q =>
                    q.isPrefixOf ((c :: rest).drop j))).map
                    (fun p2 => (i + j, i + j + p2.length)) from rfl,
                hover (c :: rest) p hfind j hj1 hj2]
              rfl) hplen hple
          rw [hrhs]
          congr 1
          rw [List.length_drop]
          apply filterMap_ext
          intro j hj
          show (pats.find? (fun q => q.isPrefixOf
              (((c :: rest).drop p.length).drop j))).map
              (fun p2 => (i + p.length + j, i + p.length + j + p2.length)) =
            (pats.find? (fun q =>
              q.isPrefixOf ((c :: rest).drop (p.length + j)))).map
              (fun p2 => (i + (p.length + j), i + (p.length + j) + p2.length))
          have hdrop : (c :: rest).drop (p.length + j) =
              ((c :: rest).drop p.length).drop j := by
            rw [List.drop_drop, Nat.add_comm]
          rw [hdrop]
          simp only [Nat.add_assoc]

theorem pats_no_overlap (pats : List Str)
    (hhead : ∀ q ∈ pats, ∃ qr, q = '@' :: qr)
    (hinner : ∀ p ∈ pats, ∀ k, 0 < k → k < p.length → p.getD k ' ' ≠ '@') :
    ∀ (t p : Str), pats.find? (fun q => q.isPrefixOf t) = some p →
      ∀ k, 0 < k → k < p.length →
        pats.find? (fun q => q.isPrefixOf (t.drop k)) = none := by
  intro t p hfind k hk1 hk2
  have hp : p ∈ pats := List.mem_of_find?_eq_some hfind
  have hpre : p.isPrefixOf t = true := by
    simpa using List.find?_some hfind
  obtain ⟨u, hu⟩ := List.isPrefixOf_iff_prefix.mp hpre
  rw [List.find?_eq_none]
  intro q hq
  obtain ⟨qr, rfl⟩ := hhead q hq
  have hklen : k ≤ p.length := Nat.le_of_lt hk2
  have hdropt : t.drop k = p.drop k ++ u := by
    rw [← hu, List.drop_append_of_le_length hklen]
  have hdropp : p.drop k = p.getD k ' ' :: p.drop (k + 1) := by
    rw [List.getD_eq_getElem p ' ' hk2, List.drop_eq_getElem_cons hk2]
  have hne : p.getD k ' ' ≠ '@' := hinner p hp k hk1 hk2
  rw [hdropt, hdropp]
  simp [List.isPrefixOf, List.cons_append]
  intro hcontra
  exact absurd (by rw [List.getD_eq_getElem?_getD]; exact hcontra.symm) hne

theorem break_pats_head :
    ∀ q ∈ [("@break").data, ("@startpoint").data], ∃ qr, q = '@' :: qr := by
  intro q hq
  rcases List.mem_cons.mp hq with rfl | hq2
  · exact ⟨("break").data, rfl⟩
  · rcases List.mem_cons.mp hq2 with rfl | hq3
    · exact ⟨("startpoint").data, rfl⟩
    · simp at hq3

theorem break_pats_inner :
    ∀ p ∈ [("@break").data, ("@startpoint").data],
      ∀ k, 0 < k → k < p.length → p.getD k ' ' ≠ '@' := by
  intro p hp k hk1 hk2
  rcases List.mem_cons.mp hp with rfl | hp2
  · have h6 : k < 6 := by simpa using hk2
    interval_cases k <;> decide
  · rcases List.mem_cons.mp hp2 with rfl | hp3
    · have h11 : k < 11 := by simpa using hk2
      interval_cases k <;> decide
    · simp at hp3

theorem endpoint_pats_head :
    ∀ q ∈ [("@endpoint").data], ∃ qr, q = '@' :: qr := by
  intro q hq
  rcases List.mem_cons.mp hq with rfl | hq2
  · exact ⟨("endpoint").data, rfl⟩
  · simp at hq2

theorem endpoint_pats_inner :
    ∀ p ∈ [("@endpoint").data],
      ∀ k, 0 < k → k < p.length → p.getD k ' ' ≠ '@' := by
  intro p hp k hk1 hk2
  rcases List.mem_cons.mp hp with rfl | hp2
  · have h9 : k < 9 := by simpa using hk2
    interval_cases k <;> decide
  · simp at hp2

theorem breakFinditer_occ (text : Str) :
    breakFinditer text =
      (List.range text.length).filterMap (fun j =>
        (([("@break").data, ("@startpoint").data]).find?
          (fun q => q.isPrefixOf (text.drop j))).map
          (fun p => (j, j + p.length))) := by
  unfold breakFinditer
  rw [finditerF_occurrences [("@break").data, ("@startpoint").data]
    (by decide)
    (pats_no_overlap _ break_pats_head break_pats_inner)
    text.length text 0 (Nat.le_refl _)]
  apply filterMap_ext
  intro j hj
  simp

theorem endpointFinditer_occ (text : Str) :
    endpointFinditer text =
      (List.range text.length).filterMap (fun j =>
        (([("@endpoint").data]).find?
          (fun q => q.isPrefixOf (text.drop j))).map
          (fun p => (j, j + p.length))) := by
  unfold endpointFinditer
  rw [finditerF_occurrences [("@endpoint").data]
    (by decide)
    (pats_no_overlap _ endpoint_pats_head endpoint_pats_inner)
    text.length text 0 (Nat.le_refl _)]
  apply filterMap_ext
  intro j hj
  simp

theorem markerEnds_eq (text : Str) :
    ((breakFinditer text).filter
      (fun m => !inCommentSpan (commentSpans text) m.1)).map (fun m => m.2) =
      markerEndsSpec text := by
  rw [breakFinditer_occ, map_filter_filterMap]
  unfold markerEndsSpec
  apply filterMap_ext
  intro j hj
  rcases hbk : (("@break").data).isPrefixOf (text.drop j) with _ | _ <;>
    rcases hsp : (("@startpoint").data).isPrefixOf (text.drop j) with _ | _ <;>
      rcases hic : inCommentSpan (commentSpans text) j with _ | _ <;>
        simp [List.find?, hbk, hsp, hic,
          show (("@break").data).length = 6 from rfl,
          show (("@startpoint").data).length = 11 from rfl]

theorem endpointStarts_eq (text : Str) (start : Nat) :
    ((endpointFinditer text).filter
      (fun m => !inCommentSpan (commentSpans text) m.1 ∧ start ≤ m.1)).map
        (fun m => m.1) =
      endpointStartsSpec text start := by
  rw [endpointFinditer_occ, map_filter_filterMap]
  unfold endpointStartsSpec
  apply filterMap_ext
  intro j hj
  rcases hep : (("@endpoint").data).isPrefixOf (text.drop j) with _ | _ <;>
    rcases hic : inCommentSpan (commentSpans text) j with _ | _ <;>
      by_cases hst : start ≤ j <;>
        simp [List.find?, hep, hic, hst]

theorem posvalid_eq_spec (text : Str) (pos : Nat) :
    is_position_valid text pos = specPositionValid text pos := by
  simp only [is_position_valid, specPositionValid, specActiveStart]
  simp only [markerEnds_eq]
  simp only [← endpointStarts_eq]
  rw [List.head?_map]
  generalize hE : ((endpointFinditer text).filter
      (fun m => !inCommentSpan (commentSpans text) m.1 ∧
        (markerEndsSpec text).getLast?.getD 0 ≤ m.1)) = E
  clear hE
  set S := (markerEndsSpec text).getLast?.getD 0 with hS
  by_cases h1 : pos > text.length
  · simp [h1, Nat.not_le.mpr h1]
  · have hle : pos ≤ text.length := Nat.not_lt.mp h1
    rcases h2 : inCommentSpan (commentSpans text) pos with _ | _
    · by_cases h3 : pos < S
      · simp [h1, h2, h3, Nat.not_le.mpr h3]
      · have hS2 : S ≤ pos := Nat.not_lt.mp h3
        rcases hhead : E.head? with _ | m
        · simp [h1, h2, h3, hle, hS2, hhead, Option.all]
        · by_cases h4 : m.1 ≤ pos
          · simp [h1, h2, h3, hle, hS2, hhead, h4, Option.all,
              Nat.not_lt.mpr h4]
          · simp [h1, h2, h3, hle, hS2, hhead, h4, Option.all,
              Nat.not_le.mp h4]
    · simp [h1, h2, hle]

/-! ## C8 — the position-validity predicate -/

/-- C8: the claim as stated is false — the predicate does *not* use the
same comment spans as the evaluator: it extends each line-comment span
past the terminating newline, which the evaluator leaves in place.  At
offset 4 of `"@//x\ny"` (the newline), the evaluator keeps the character
(the text evaluates to `"\ny"`), yet `is_position_valid` reports the
offset as invalid. -/
theorem C8_counterexample :
    is_position_valid (("@//x\ny").data) 4 = false ∧
      evaluate_dynamic_prompt chooseHead (("@//x\ny").data) =
        (("\ny").data) := by
  constructor <;> decide

/-- C8 (amended): `is_position_valid` decides membership by the comment
spans with each line-comment span extended past its terminating newline,
and by marker occurrences located in the original text skipping those
inside comments: an offset is valid exactly when it is inside the text,
outside every such span, at or after the end of the last `@break` /
`@startpoint` occurrence outside comments (position 0 when none), and
before the first `@endpoint` occurrence outside comments at or after that
start; for `"A@breakB@endpointC"` evaluation yields `"B"` and the
predicate accepts exactly offset 7, the `B` span. -/
theorem C8_active_region :
    (∀ text pos, is_position_valid text pos = specPositionValid text pos) ∧
    (∀ choose : List Str → Str,
      evaluate_dynamic_prompt choose (("A@breakB@endpointC").data) =
        (("B").data)) ∧
    (∀ pos, is_position_valid (("A@breakB@endpointC").data) pos = true ↔
      pos = 7) := by
  refine ⟨posvalid_eq_spec, fun choose => rfl, ?_⟩
  intro pos
  by_cases h : pos ≤ 18
  · interval_cases pos <;> decide
  · have hlen : (("A@breakB@endpointC").data).length = 18 := rfl
    have hfalse : is_position_valid (("A@breakB@endpointC").data) pos =
        false := by
      unfold is_position_valid
      have hcond : pos > (("A@breakB@endpointC").data).length := by
        rw [hlen]
        omega
      rw [if_pos hcond]
    rw [hfalse]
    constructor
    · intro hc
      exact absurd hc (by simp)
    · intro hc
      omega

/-- C8 witness: the amended characterization applied at the example text,
at the accepted offset 7 and the rejected offset 8. -/
theorem C8_witness :
    is_position_valid (("A@breakB@endpointC").data) 7 = true ∧
      is_position_valid (("A@breakB@endpointC").data) 8 = false := by
  have h := C8_active_region
  refine ⟨(h.2.2 7).mpr rfl, ?_⟩
  rcases hv : is_position_valid (("A@breakB@endpointC").data) 8 with _ | _
  · rfl
  · exact absurd ((h.2.2 8).mp hv) (by decide)

end Wannabe
